import Mathlib

set_option maxRecDepth 4000

/-!
Verification development for the PLATER redis TRAPI cypher compiler and
result mapper (`redis_trapi_cypher_compiler.py`, `redis_driver.py`).

The Python values flowing through the compiler (JSON-ish dicts) are modelled
by `PyVal`; dictionaries are association lists with string keys (Python
dicts have unique keys, so first-occurrence lookup and erase-all-occurrences
agree with dict semantics on well-formed inputs).
-/

/-- A Python value as it appears in TRAPI query graphs and result rows. -/
inductive PyVal where
  | vNone : PyVal
  | vBool : Bool → PyVal
  | vInt : Int → PyVal
  | vStr : String → PyVal
  | vList : List PyVal → PyVal
  | vDict : List (String × PyVal) → PyVal

mutual
/-- Decidable structural equality for `PyVal` (Python `==` on these values). -/
def PyVal.decEq : (a b : PyVal) → Decidable (a = b)
  | .vNone, .vNone => isTrue rfl
  | .vBool a, .vBool b =>
      if h : a = b then isTrue (by rw [h]) else isFalse (by intro hc; cases hc; exact h rfl)
  | .vInt a, .vInt b =>
      if h : a = b then isTrue (by rw [h]) else isFalse (by intro hc; cases hc; exact h rfl)
  | .vStr a, .vStr b =>
      if h : a = b then isTrue (by rw [h]) else isFalse (by intro hc; cases hc; exact h rfl)
  | .vList a, .vList b =>
      match PyVal.decEqList a b with
      | isTrue h => isTrue (by rw [h])
      | isFalse h => isFalse (by intro hc; cases hc; exact h rfl)
  | .vDict a, .vDict b =>
      match PyVal.decEqDict a b with
      | isTrue h => isTrue (by rw [h])
      | isFalse h => isFalse (by intro hc; cases hc; exact h rfl)
  | .vNone, .vBool _ => isFalse nofun
  | .vNone, .vInt _ => isFalse nofun
  | .vNone, .vStr _ => isFalse nofun
  | .vNone, .vList _ => isFalse nofun
  | .vNone, .vDict _ => isFalse nofun
  | .vBool _, .vNone => isFalse nofun
  | .vBool _, .vInt _ => isFalse nofun
  | .vBool _, .vStr _ => isFalse nofun
  | .vBool _, .vList _ => isFalse nofun
  | .vBool _, .vDict _ => isFalse nofun
  | .vInt _, .vNone => isFalse nofun
  | .vInt _, .vBool _ => isFalse nofun
  | .vInt _, .vStr _ => isFalse nofun
  | .vInt _, .vList _ => isFalse nofun
  | .vInt _, .vDict _ => isFalse nofun
  | .vStr _, .vNone => isFalse nofun
  | .vStr _, .vBool _ => isFalse nofun
  | .vStr _, .vInt _ => isFalse nofun
  | .vStr _, .vList _ => isFalse nofun
  | .vStr _, .vDict _ => isFalse nofun
  | .vList _, .vNone => isFalse nofun
  | .vList _, .vBool _ => isFalse nofun
  | .vList _, .vInt _ => isFalse nofun
  | .vList _, .vStr _ => isFalse nofun
  | .vList _, .vDict _ => isFalse nofun
  | .vDict _, .vNone => isFalse nofun
  | .vDict _, .vBool _ => isFalse nofun
  | .vDict _, .vInt _ => isFalse nofun
  | .vDict _, .vStr _ => isFalse nofun
  | .vDict _, .vList _ => isFalse nofun

def PyVal.decEqList : (a b : List PyVal) → Decidable (a = b)
  | [], [] => isTrue rfl
  | [], _ :: _ => isFalse nofun
  | _ :: _, [] => isFalse nofun
  | x :: xs, y :: ys =>
      match PyVal.decEq x y with
      | isFalse h => isFalse (by intro hc; cases hc; exact h rfl)
      | isTrue h1 =>
        match PyVal.decEqList xs ys with
        | isTrue h2 => isTrue (by rw [h1, h2])
        | isFalse h => isFalse (by intro hc; cases hc; exact h rfl)

def PyVal.decEqDict : (a b : List (String × PyVal)) → Decidable (a = b)
  | [], [] => isTrue rfl
  | [], _ :: _ => isFalse nofun
  | _ :: _, [] => isFalse nofun
  | (k1, v1) :: xs, (k2, v2) :: ys =>
      if hk : k1 = k2 then
        match PyVal.decEq v1 v2 with
        | isFalse h => isFalse (by intro hc; cases hc; exact h rfl)
        | isTrue h1 =>
          match PyVal.decEqDict xs ys with
          | isTrue h2 => isTrue (by rw [hk, h1, h2])
          | isFalse h => isFalse (by intro hc; cases hc; exact h rfl)
      else isFalse (by intro hc; cases hc; exact hk rfl)
end

instance : DecidableEq PyVal := PyVal.decEq

/-- A Python dict: association list with string keys. -/
abbrev PyDict := List (String × PyVal)

/-- Python truthiness (`if value:`). -/
def pyTruthy : PyVal → Bool
  | .vNone => false
  | .vBool b => b
  | .vInt n => n != 0
  | .vStr s => s != ""
  | .vList xs => !xs.isEmpty
  | .vDict d => !d.isEmpty

/-- `type(value).__name__` for the error message of `cypher_prop_string`. -/
def pyTypeName : PyVal → String
  | .vNone => "NoneType"
  | .vBool _ => "bool"
  | .vInt _ => "int"
  | .vStr _ => "str"
  | .vList _ => "list"
  | .vDict _ => "dict"

/-- Python `sep.join(items)`. -/
def strJoin (sep : String) : List String → String
  | [] => ""
  | [x] => x
  | x :: xs => x ++ sep ++ strJoin sep xs

mutual
/-- Python `repr(value)` (as used for elements of containers). -/
def pyRepr : PyVal → String
  | .vNone => "None"
  | .vBool b => if b then "True" else "False"
  | .vInt n => toString n
  | .vStr s => "'" ++ s ++ "'"
  | .vList xs => "[" ++ strJoin ", " (pyReprList xs) ++ "]"
  | .vDict d => "\x7b" ++ strJoin ", " (pyReprDict d) ++ "\x7d"

def pyReprList : List PyVal → List String
  | [] => []
  | x :: xs => pyRepr x :: pyReprList xs

def pyReprDict : List (String × PyVal) → List String
  | [] => []
  | (k, v) :: d => ("'" ++ k ++ "': " ++ pyRepr v) :: pyReprDict d
end

/-- Python `str(value)` (as used by f-string interpolation); on containers
`str` coincides with `repr`. -/
def pyStr : PyVal → String
  | .vNone => "None"
  | .vBool b => if b then "True" else "False"
  | .vInt n => toString n
  | .vStr s => s
  | .vList xs => pyRepr (.vList xs)
  | .vDict d => pyRepr (.vDict d)

/-- Left-to-right non-overlapping replacement on character lists; `fuel`
bounds the recursion (structurally) and is instantiated with the string
length, which suffices because every step consumes at least one character. -/
def replaceFuel (pat rep : List Char) : Nat → List Char → List Char
  | _, [] => []
  | 0, cs => cs
  | fuel + 1, c :: cs =>
      if pat.isPrefixOf (c :: cs) then
        rep ++ replaceFuel pat rep fuel ((c :: cs).drop pat.length)
      else c :: replaceFuel pat rep fuel cs

/-- Python `s.replace(pat, rep)`: replace every non-overlapping occurrence,
left to right; an empty pattern leaves the string unchanged (as does the
`String.replace` of the standard library). -/
def pyReplace (s pat rep : String) : String :=
  if pat = "" then s
  else ⟨replaceFuel pat.data rep.data s.data.length s.data⟩

/-- Dict lookup (`d[k]` / `d.get(k)`), first occurrence. -/
def dictLookup (d : PyDict) (k : String) : Option PyVal :=
  (d.find? (fun p => p.1 = k)).map (fun p => p.2)

/-- Dict key removal (`d.pop(k, ...)` leaves `d` without key `k`). -/
def dictErase (d : PyDict) (k : String) : PyDict :=
  d.filter (fun p => p.1 ≠ k)

/-! ## Node pattern compiler (`redis_trapi_cypher_compiler.NodeReference`) -/

/-- `cypher_prop_string` (source lines 8-15): booleans render bare and
lowercase, strings render single-quoted, anything else raises `ValueError`. -/
def cypher_prop_string (value : PyVal) : Except String String :=
  match value with
  | .vBool b => .ok (if b then "true" else "false")
  | .vStr s => .ok ("'" ++ s ++ "'")
  | _ => .error ("Unsupported property type: " ++ pyTypeName value ++ ".")

/-- The label values of a node: `node.pop('category', 'biolink.NamedThing')`
wrapped into a list when not already one (source lines 25-27). -/
def nodeLabelVals (node : PyDict) : List PyVal :=
  match (dictLookup node "category").getD (.vStr "biolink.NamedThing") with
  | .vList xs => xs
  | v => [v]

/-- Each label must be a string (the `label.replace` call in the
`label_filters` loop, source line 46, raises `AttributeError` otherwise). -/
def nodeLabels (labelVals : List PyVal) : Except String (List String) :=
  labelVals.mapM (fun v =>
    match v with
    | .vStr s => Except.ok s
    | _ => Except.error "AttributeError: label has no attribute replace")

/-- The label-membership filters computed by source lines 43-47.  The source
computes this list but never adds it to `self._filters`. -/
def nodeLabelFilters (labels : List String) (name : String) : List String :=
  labels.map (fun label =>
    "`" ++ pyReplace label "biolink:" "biolink." ++ "` in labels(`" ++ name ++ "`)")

/-- `node.pop("id", None)` handling, source lines 30-42.  Returns the inline
id property (singleton case), the curie-matching filter terms (multi case)
and the `has_curie` flag; a non-string non-list curie raises `TypeError`. -/
def nodeCurie (node : PyDict) (name : String) :
    Except String (PyDict × List String × Bool) :=
  match dictLookup node "id" with
  | none => .ok ([], [], false)
  | some .vNone => .ok ([], [], false)
  | some (.vStr s) => .ok ([("id", .vStr s)], [], true)
  | some (.vList [c]) => .ok ([("id", c)], [], true)
  | some (.vList cs) =>
      .ok ([], cs.map (fun c => name ++ ".id = '" ++ pyStr c ++ "'"), true)
  | some _ => .error "Curie should be a string or list of strings."

/-- The node dict after popping the reserved keys `category`, `id`, `name`,
`is_set` (source lines 25, 30, 52, 53). -/
def nodeExtras (node : PyDict) : PyDict :=
  dictErase (dictErase (dictErase (dictErase node "category") "id") "name") "is_set"

/-- The inline property literal, source line 58: keys with truthy values are
rendered in order, each as `` `key`: value ``, inside `&nbsp;{...}`. -/
def renderProps (props : PyDict) : Except String String := do
  let parts ← (props.filter (fun p => pyTruthy p.2)).mapM
      (fun p => do
        let v ← cypher_prop_string p.2
        pure ("`" ++ p.1 ++ "`: " ++ v))
  pure (" \x7b" ++ strJoin ", " parts ++ "\x7d")

/-- Compiled node reference (fields of the Python `NodeReference` object;
`_extras` is omitted because source lines 59-63 always set it to `''`). -/
structure NodeReference where
  name : String
  labels : List String
  prop_string : String
  has_curie : Bool
  filters : String
deriving Repr, DecidableEq

/-- `NodeReference.__init__` (source lines 21-64). -/
def mkNodeReference (node : PyDict) (node_id : String) (anonymous : Bool := false) :
    Except String NodeReference := do
  let name := if anonymous then "" else node_id
  let (idProps, curieFilters, has_curie) ← nodeCurie node name
  let labels ← nodeLabels (nodeLabelVals node)
  -- source lines 43-47 compute `nodeLabelFilters labels name` here and then
  -- discard it: `_filters` (lines 48-51) is built from the curie filters only
  let filters :=
    if curieFilters.isEmpty then ""
    else "( " ++ strJoin " OR " curieFilters ++ ")"
  let props := idProps ++ nodeExtras node
  let prop_string ← renderProps props
  pure { name, labels, prop_string, has_curie, filters }

/-- First-render form of a node (source lines 66-71, `_num` going 0 to 1):
name, backtick-quoted first label (when labels is nonempty), property
literal. -/
def nodeFirstStr (r : NodeReference) : String :=
  r.name ++
    (match r.labels with
     | [] => ""
     | l :: _ => ":`" ++ pyReplace l "biolink:" "biolink." ++ "`") ++
    r.prop_string

/-- `NodeReference.__str__` with the render counter made explicit: first call
returns the declaration form, later calls just the name (source lines 66-72). -/
def renderNodeRef (r : NodeReference) (num : Nat) : String × Nat :=
  if num = 0 then (nodeFirstStr r, 1) else (r.name, num + 1)

instance : Repr PyVal := ⟨fun v _ => Std.Format.text (pyRepr v)⟩


/-! ## Edge pattern compiler (`redis_trapi_cypher_compiler.EdgeReference`) -/

/-- Compiled edge reference (fields of the Python `EdgeReference` object;
the `reversed` flag lives in the assembler state, see `processEdge`). -/
structure EdgeReference where
  name : String
  label : Option String
  filters : String
  directed : Bool
deriving Repr, DecidableEq

/-- The predicate-derived label and filter of an edge, source lines 101-117:
a string predicate becomes the inline label with no filter; a list of
predicates becomes an OR-joined filter (each term `type(name) = "pred" ` with
`biolink:` rewritten to `biolink.` and a trailing space) with no label; an
absent or `None` predicate gives neither; any other predicate value leaves
the local `filters` unassigned, an `UnboundLocalError`. -/
def edgeLabelFilters (edge : PyDict) (name : String) :
    Except String (Option String × String) :=
  match dictLookup edge "predicate" with
  | none => .ok (none, "")
  | some .vNone => .ok (none, "")
  | some (.vStr s) => .ok (some s, "")
  | some (.vList ps) => do
      let terms ← ps.mapM (fun p =>
        match p with
        | .vStr q =>
            Except.ok ("type(" ++ name ++ ") = \"" ++ pyReplace q "biolink:" "biolink." ++ "\" ")
        | _ => Except.error "AttributeError: predicate has no attribute replace")
      pure (none, strJoin " OR " terms)
  | some _ => .error "UnboundLocalError: filters referenced before assignment"

/-- `EdgeReference.__init__` (source lines 95-125).  `directed` defaults to
the truthiness of the predicate entry and is overridden by an explicit
`directed` key. -/
def mkEdgeReference (edge : PyDict) (edge_id : String) (anonymous : Bool := false) :
    Except String EdgeReference := do
  let name := if anonymous then "" else edge_id
  let (label, filters) ← edgeLabelFilters edge name
  let hasType := pyTruthy ((dictLookup edge "predicate").getD .vNone)
  let directed :=
    match dictLookup edge "directed" with
    | some d => pyTruthy d
    | none => hasType
  pure { name, label, filters, directed }

/-- The bracket innards of an edge's first render (source lines 130-132):
name plus backtick-quoted label with `biolink:` rewritten to `biolink.`. -/
def edgeInnardsFirst (r : EdgeReference) : String :=
  r.name ++
    (match r.label with
     | some l => ":`" ++ pyReplace l "biolink:" "biolink." ++ "`"
     | none => "")

/-- `EdgeReference.__str__` with the render counter and `reversed` flag made
explicit (source lines 127-138). -/
def edgeStr (r : EdgeReference) (num : Nat) (rev : Bool) : String × Nat :=
  let innards := if num = 0 then edgeInnardsFirst r else r.name
  let rendered :=
    if r.directed then
      if rev then "<-[" ++ innards ++ "]-" else "-[" ++ innards ++ "]->"
    else "-[" ++ innards ++ "]-"
  (rendered, num + 1)


/-! ## Match-fragment assembler (`cypher_query_fragment_match`) -/

/-- A query graph: node-id to node pattern and edge-id to edge pattern
mappings (keys unique, as in a Python dict). -/
structure QGraph where
  nodes : List (String × PyDict)
  edges : List (String × PyDict)

/-- Render counters (`_num`) of the compiled references, keyed by id. -/
abbrev Counts := List (String × Nat)

def getNum (c : Counts) (k : String) : Nat :=
  ((c.find? (fun p => p.1 = k)).map (fun p => p.2)).getD 0

def setNum (c : Counts) (k : String) (n : Nat) : Counts :=
  (k, n) :: c.filter (fun p => p.1 ≠ k)

/-- Named compiled node references (`node_references`, source line 156). -/
abbrev NodeRefs := List (String × NodeReference)

/-- `node_references[k]`: missing key raises `KeyError`. -/
def lookupNodeRef (refs : NodeRefs) (k : String) : Except String NodeReference :=
  match refs.find? (fun p => p.1 = k) with
  | some p => .ok p.2
  | none => .error ("KeyError: " ++ k)

/-- Render a node reference through the counter store. -/
def renderNodeAt (r : NodeReference) (c : Counts) (k : String) : String × Counts :=
  let (s, n) := renderNodeRef r (getNum c k)
  (s, setNum c k n)

/-- Step 2 of the assembler, source lines 168-172: one standalone `MATCH` per
orphaned node followed by its filter when nonempty (the appended `extras`,
line 170, is always the empty string). -/
def orphanClauses (refs : NodeRefs) (orphans : List String) (c : Counts) :
    Except String (List String × Counts) :=
  match orphans with
  | [] => .ok ([], c)
  | n :: rest => do
      let r ← lookupNodeRef refs n
      let (s, c) := renderNodeAt r c n
      let (cls, c) ← orphanClauses refs rest c
      pure ((("MATCH (" ++ s ++ ")") ::
             (if r.filters ≠ "" then ["WHERE " ++ r.filters] else [])) ++ cls, c)

/-- Step 3 of the assembler, source lines 173-179: for each node in
`nodes_with_id`, a standalone `MATCH`, its filter when nonempty, and a `WITH`
listing `nodes_so_far` after appending the node. -/
def boundIdClauses (refs : NodeRefs) (ns : List String) (soFar : List String)
    (c : Counts) : Except String (List String × Counts) :=
  match ns with
  | [] => .ok ([], c)
  | n :: rest => do
      let r ← lookupNodeRef refs n
      let (s, c) := renderNodeAt r c n
      let here := ("MATCH (" ++ s ++ ")") ::
        ((if r.filters ≠ "" then ["WHERE " ++ r.filters] else []) ++
         ["WITH " ++ strJoin ", " (soFar ++ [n])])
      let (cls, c) ← boundIdClauses refs rest (soFar ++ [n]) c
      pure (here ++ cls, c)

/-- `nodes_with_id`, source line 167: ids of nodes whose `id` entry is truthy. -/
def nodesWithId (qg : QGraph) : List String :=
  (qg.nodes.filter (fun p => pyTruthy ((dictLookup p.2 "id").getD .vNone))).map Prod.fst

/-- One iteration of the edge loop, source lines 182-196.  Returns the
emitted clauses, the updated node render counters, the edge's render counter
and the `reversed` flag.  The f-string of lines 188/190 renders its pieces
left to right; the degree guard of line 194 renders the target reference two
more times. -/
def processEdge (nrefs : NodeRefs) (eref : EdgeReference) (ed : PyDict) (mc : Int)
    (c : Counts) (enum : Nat) : Except String (List String × Counts × Nat × Bool) := do
  let sV ← (dictLookup ed "subject").elim (Except.error "KeyError: subject") Except.ok
  let oV ← (dictLookup ed "object").elim (Except.error "KeyError: object") Except.ok
  let sId ← (match sV with
    | .vStr s => Except.ok s
    | _ => Except.error "KeyError: subject is not a node id")
  let oId ← (match oV with
    | .vStr s => Except.ok s
    | _ => Except.error "KeyError: object is not a node id")
  let srcRef ← lookupNodeRef nrefs sId
  let tgtRef ← lookupNodeRef nrefs oId
  let rev := tgtRef.has_curie && !srcRef.has_curie
  let (matchStr, c, enum) :=
    if rev then
      let (ts, c) := renderNodeAt tgtRef c oId
      let (es, enum) := edgeStr eref enum true
      let (ss, c) := renderNodeAt srcRef c sId
      ("MATCH (" ++ ts ++ ")" ++ es ++ "(" ++ ss ++ ")", c, enum)
    else
      let (ss, c) := renderNodeAt srcRef c sId
      let (es, enum) := edgeStr eref enum false
      let (ts, c) := renderNodeAt tgtRef c oId
      ("MATCH (" ++ ss ++ ")" ++ es ++ "(" ++ ts ++ ")", c, enum)
  let base := ([srcRef.filters, tgtRef.filters, eref.filters].filter (fun f => f ≠ "")).map
    (fun f => "(" ++ f ++ ")")
  let (degree, c) :=
    if mc > -1 then
      let (t1, c) := renderNodeAt tgtRef c oId
      let (t2, c) := renderNodeAt tgtRef c oId
      (["((indegree(" ++ t1 ++ ") + outdegree(" ++ t2 ++ ") ) < " ++ toString mc ++ ")"], c)
    else ([], c)
  let filters := base ++ degree
  pure ((matchStr ::
         (if filters.isEmpty then [] else ["\nWHERE " ++ strJoin "\nAND " filters])),
        c, enum, rev)

/-- The edge loop over all edges in declaration order. -/
def edgeClausesGo (nrefs : NodeRefs)
    (items : List ((String × EdgeReference) × (String × PyDict))) (mc : Int)
    (c : Counts) : Except String (List String × Counts) :=
  match items with
  | [] => .ok ([], c)
  | ((_, eref), (_, ed)) :: rest => do
      let (cls, c, _, _) ← processEdge nrefs eref ed mc c 0
      let (more, c) ← edgeClausesGo nrefs rest mc c
      pure (cls ++ more, c)

/-- The `match_strings` list built by `cypher_query_fragment_match` (source
lines 148-198): orphan clauses, then bound-id clauses, then edge clauses.
Python iterates `orphaned_nodes` as a set with unspecified order; here the
iteration is determinized to node declaration order.  A list- or dict-valued
edge endpoint makes Python fail at the `set(...)` of line 165; here every
non-string endpoint fails at the reference lookup instead (both abort the
compilation). -/
def fragmentClauses (qg : QGraph) (mc : Int) : Except String (List String) := do
  let nrefs ← qg.nodes.mapM (fun p => do
      let r ← mkNodeReference p.2 p.1
      pure (p.1, r))
  let erefs ← qg.edges.mapM (fun p => do
      let r ← mkEdgeReference p.2 p.1
      pure (p.1, r))
  let referenced ← qg.edges.mapM (fun p => do
      let s ← (dictLookup p.2 "subject").elim (Except.error "KeyError: subject") Except.ok
      let o ← (dictLookup p.2 "object").elim (Except.error "KeyError: object") Except.ok
      pure [s, o])
  let referencedVals := referenced.flatten
  let orphans := (qg.nodes.map Prod.fst).filter
    (fun n => !(referencedVals.contains (PyVal.vStr n)))
  let (cls1, c) ← orphanClauses nrefs orphans []
  let (cls2, c) ← boundIdClauses nrefs (nodesWithId qg) [] c
  let (cls3, _) ← edgeClausesGo nrefs (erefs.zip qg.edges) mc c
  pure (cls1 ++ cls2 ++ cls3)

/-- `cypher_query_fragment_match` (source lines 148-200): the match strings
joined with single spaces. -/
def cypher_query_fragment_match (qg : QGraph) (mc : Int := -1) : Except String String := do
  let cls ← fragmentClauses qg mc
  pure (strJoin " " cls)

/-! ## Result mapper (`RedisDriver.create_TRAPI_kg_response`, driver lines 121-197) -/

/-- A KnowledgeGraph node record: `name` plus attribute entries; each stored
attribute is the dict `{'type': 'NA', 'value': value, 'name': key}` and is
modelled as the `(key, value)` pair (the `type` field is the constant
`'NA'`). -/
structure KNode where
  name : PyVal
  attributes : List (String × PyVal)
deriving Repr, DecidableEq

/-- A KnowledgeGraph edge record (attributes modelled as for `KNode`). -/
structure KEdge where
  subject : PyVal
  object : PyVal
  predicate : String
  attributes : List (String × PyVal)
deriving Repr, DecidableEq

/-- One answer row: bindings of each query-graph id to the ordered list of
store ids; each binding entry is the dict `{'id': storeId}`, modelled as the
store id itself. -/
structure AnswerBinding where
  node_bindings : List (String × List PyVal)
  edge_bindings : List (String × List PyVal)
deriving Repr, DecidableEq

structure TRAPIResponse where
  kgNodes : List (PyVal × KNode)
  kgEdges : List (PyVal × KEdge)
  results : List AnswerBinding
deriving Repr, DecidableEq

/-- Mutable state of one `create_TRAPI_kg_response` call: the dedup
registries (`collected_nodes` / `collected_edges`) and the accumulated
KnowledgeGraph maps (`nodes_all` / `edges_all`, insertion-ordered). -/
structure MapState where
  nodesAll : List (PyVal × KNode)
  edgesAll : List (PyVal × KEdge)
  collectedNodes : List PyVal
  collectedEdges : List PyVal
deriving Repr, DecidableEq

def emptyMapState : MapState := ⟨[], [], [], []⟩

/-- `d.pop('id')`: `KeyError` when the identity field is missing. -/
def popId (d : PyDict) : Except String (PyVal × PyDict) :=
  match dictLookup d "id" with
  | some v => .ok (v, dictErase d "id")
  | none => .error "KeyError: id"

/-- Build the registered node record, driver lines 148-161: `name` from the
`name` field (default `''`), attributes from every remaining field whose key
is not already in the record (`name`, `attributes`). -/
def mkKNode (node : PyDict) : KNode :=
  { name := (dictLookup node "name").getD (.vStr "")
  , attributes := node.filter (fun p => p.1 != "name" && p.1 != "attributes") }

/-- Build the registered edge record, driver lines 174-190: endpoints from
the id pair, predicate from the translated type, attributes from remaining
fields not already in the record. -/
def mkKEdge (edge : PyDict) (sV oV : PyVal) (pred : String) : KEdge :=
  { subject := sV, object := oV, predicate := pred
  , attributes := edge.filter (fun p =>
      p.1 != "subject" && p.1 != "object" && p.1 != "predicate" && p.1 != "attributes") }

/-- Driver lines 138-141: wrap a scalar cell, pair records with their
`type__` entries by `zip` (which truncates to the shorter list).  Python
would zip over any iterable; projected rows only ever put lists there, so a
non-list `type__` value for a list cell is modelled as the `TypeError` that
a non-iterable raises. -/
def nodeCellPairs (cell tys : PyVal) : Except String (List (PyVal × PyVal)) :=
  match cell with
  | .vList xs =>
      (match tys with
       | .vList ts => .ok (xs.zip ts)
       | _ => .error "TypeError: zip argument is not iterable")
  | v => .ok [(v, tys)]

/-- Driver lines 141-161, the loop over one node cell: pop the identity
(`KeyError` when absent, `AssertionError` when falsy), register the record
on first sight, and append the id to the binding list unconditionally. -/
def processNodeElems (st : MapState) (elems : List (PyVal × PyVal)) (acc : List PyVal) :
    Except String (MapState × List PyVal) :=
  match elems with
  | [] => .ok (st, acc)
  | (nv, _) :: rest => do
      let d ← (match nv with
        | .vDict d => Except.ok d
        | _ => Except.error "AttributeError: pop")
      let (idV, d') ← popId d
      if pyTruthy idV then
        let st' :=
          if idV ∈ st.collectedNodes then st
          else { st with
                 collectedNodes := st.collectedNodes ++ [idV],
                 nodesAll := st.nodesAll ++ [(idV, mkKNode d')] }
        processNodeElems st' rest (acc ++ [idV])
      else .error "Error, did not find ID from Node in db"

/-- Driver lines 136-162, the loop over the node query-graph ids of one row. -/
def processRowNodes (st : MapState) (row : PyDict) (qgIds : List String)
    (bnds : List (String × List PyVal)) :
    Except String (MapState × List (String × List PyVal)) :=
  match qgIds with
  | [] => .ok (st, bnds)
  | q :: rest => do
      let cell ← (dictLookup row q).elim (Except.error ("KeyError: " ++ q)) Except.ok
      let tys ← (dictLookup row ("type__" ++ q)).elim
        (Except.error ("KeyError: type__" ++ q)) Except.ok
      let pairs ← nodeCellPairs cell tys
      let (st', ids) ← processNodeElems st pairs []
      processRowNodes st' row rest (bnds ++ [(q, ids)])

/-- The translated type of one edge element (driver line 166): `replace`
requires a string. -/
def edgeTypeStr (t : PyVal) : Except String String :=
  match t with
  | .vStr s => .ok (pyReplace s "biolink." "biolink:")
  | _ => .error "AttributeError: replace"

/-- Driver lines 164-170: wrap the edge cell, translate the `type__` entries,
fetch `id_pairs__` and zip all three (truncating).  Lookups and translations
happen in source order, so a missing `id_pairs__` column is only reached
after the types translate. -/
def edgeCellTriples (row : PyDict) (q : String) :
    Except String (List ((PyVal × String) × PyVal)) := do
  let cell ← (dictLookup row q).elim (Except.error ("KeyError: " ++ q)) Except.ok
  match cell with
  | .vList xs => do
      let tys ← (dictLookup row ("type__" ++ q)).elim
        (Except.error ("KeyError: type__" ++ q)) Except.ok
      let ts ← (match tys with
        | .vList l => Except.ok l
        | _ => Except.error "TypeError: not iterable")
      let ts ← ts.mapM edgeTypeStr
      let ps ← (dictLookup row ("id_pairs__" ++ q)).elim
        (Except.error ("KeyError: id_pairs__" ++ q)) Except.ok
      let ps ← (match ps with
        | .vList l => Except.ok l
        | _ => Except.error "TypeError: zip argument is not iterable")
      pure ((xs.zip ts).zip ps)
  | v => do
      let tys ← (dictLookup row ("type__" ++ q)).elim
        (Except.error ("KeyError: type__" ++ q)) Except.ok
      let t ← edgeTypeStr tys
      let ps ← (dictLookup row ("id_pairs__" ++ q)).elim
        (Except.error ("KeyError: id_pairs__" ++ q)) Except.ok
      let ps ← (match ps with
        | .vList l => Except.ok l
        | _ => Except.error "TypeError: zip argument is not iterable")
      pure (([v].zip [t]).zip ps)

/-- Driver lines 170-193, the loop over one edge cell: pop the identity
(`KeyError` when absent), on first sight unpack the id pair (a non-2-element
value raises `ValueError`) and register the record, and append the id to the
binding list unconditionally. -/
def processEdgeElems (st : MapState) (elems : List ((PyVal × String) × PyVal))
    (acc : List PyVal) : Except String (MapState × List PyVal) :=
  match elems with
  | [] => .ok (st, acc)
  | ((ev, ety), pairV) :: rest => do
      let d ← (match ev with
        | .vDict d => Except.ok d
        | _ => Except.error "AttributeError: pop")
      let (idV, d') ← popId d
      let st' ←
        if idV ∈ st.collectedEdges then pure st
        else do
          let so ← (match pairV with
            | .vList [a, b] => Except.ok (a, b)
            | _ => Except.error "ValueError: id pair does not unpack")
          pure { st with
                 collectedEdges := st.collectedEdges ++ [idV],
                 edgesAll := st.edgesAll ++ [(idV, mkKEdge d' so.1 so.2 ety)] }
      processEdgeElems st' rest (acc ++ [idV])

/-- Driver lines 163-195, the loop over the edge query-graph ids of one row. -/
def processRowEdges (st : MapState) (row : PyDict) (qgIds : List String)
    (bnds : List (String × List PyVal)) :
    Except String (MapState × List (String × List PyVal)) :=
  match qgIds with
  | [] => .ok (st, bnds)
  | q :: rest => do
      let triples ← edgeCellTriples row q
      let (st', ids) ← processEdgeElems st triples []
      processRowEdges st' row rest (bnds ++ [(q, ids)])

/-- One result row, driver lines 130-196. -/
def processRow (qg : QGraph) (st : MapState) (row : PyDict) :
    Except String (MapState × AnswerBinding) := do
  let (st, nb) ← processRowNodes st row (qg.nodes.map Prod.fst) []
  let (st, eb) ← processRowEdges st row (qg.edges.map Prod.fst) []
  pure (st, ⟨nb, eb⟩)

def mapRowsGo (qg : QGraph) (st : MapState) (rows : List PyDict)
    (acc : List AnswerBinding) : Except String (MapState × List AnswerBinding) :=
  match rows with
  | [] => .ok (st, acc)
  | row :: rest => do
      let (st', b) ← processRow qg st row
      mapRowsGo qg st' rest (acc ++ [b])

/-- `RedisDriver.create_TRAPI_kg_response` (driver lines 121-197): fold the
rows in order and return the deduplicated KnowledgeGraph plus the per-row
answer bindings. -/
def create_TRAPI_kg_response (qg : QGraph) (rows : List PyDict) :
    Except String TRAPIResponse := do
  let (st, results) ← mapRowsGo qg emptyMapState rows []
  pure ⟨st.nodesAll, st.edgesAll, results⟩

/-! ## Specification-level descriptions

State-free recomputations and predicates used to state the claims; these
follow the spec's wording and are compared against the translated code. -/

/-- The store id extracted from one (record, type) node pair, state-free. -/
def elemNodeId (p : PyVal × PyVal) : Except String PyVal := do
  let d ← (match p.1 with
    | .vDict d => Except.ok d
    | _ => Except.error "AttributeError: pop")
  let (idV, _) ← popId d
  if pyTruthy idV then pure idV
  else Except.error "Error, did not find ID from Node in db"

/-- The ordered list of store ids produced by one node cell: one id per
record, in encounter order, with multiplicity, independent of any dedup
state. -/
def cellNodeIds (cell tys : PyVal) : Except String (List PyVal) := do
  let pairs ← nodeCellPairs cell tys
  pairs.mapM elemNodeId

/-- The store id extracted from one (record, type, id-pair) edge triple. -/
def elemEdgeId (t : (PyVal × String) × PyVal) : Except String PyVal := do
  let d ← (match t.1.1 with
    | .vDict d => Except.ok d
    | _ => Except.error "AttributeError: pop")
  let (idV, _) ← popId d
  pure idV

/-- The ordered list of store ids produced by one edge cell of a row. -/
def cellEdgeIds (row : PyDict) (q : String) : Except String (List PyVal) := do
  let triples ← edgeCellTriples row q
  triples.mapM elemEdgeId

/-- The answer bindings of one row as the spec describes them: for every
query-graph id, the store ids of that row's cell in encounter order; the
dedup registries play no role. -/
def specRowBinding (qg : QGraph) (row : PyDict) : Except String AnswerBinding := do
  let nb ← (qg.nodes.map Prod.fst).mapM (fun q => do
    let cell ← (dictLookup row q).elim (Except.error ("KeyError: " ++ q)) Except.ok
    let tys ← (dictLookup row ("type__" ++ q)).elim
      (Except.error ("KeyError: type__" ++ q)) Except.ok
    let ids ← cellNodeIds cell tys
    pure (q, ids))
  let eb ← (qg.edges.map Prod.fst).mapM (fun q => do
    let ids ← cellEdgeIds row q
    pure (q, ids))
  pure ⟨nb, eb⟩

/-- The spec's "endpoint carries identifiers": the pattern has at least one
identifier (a string id, or a nonempty id list). -/
def nodeCarriesIds (node : PyDict) : Bool :=
  match dictLookup node "id" with
  | some (.vStr _) => true
  | some (.vList cs) => !cs.isEmpty
  | _ => false

/-- The code's actual reversal trigger: the pattern has an id entry that is
a string or a list — including the empty list, which carries no identifier
(this is exactly when lines 30-42 set `has_curie`). -/
def nodeHasIdEntry (node : PyDict) : Bool :=
  match dictLookup node "id" with
  | some (.vStr _) => true
  | some (.vList _) => true
  | _ => false

/-- A matched record (a property bag) that lacks its identity field. -/
def recLacksId (v : PyVal) : Bool :=
  match v with
  | .vDict d => (dictLookup d "id").isNone
  | _ => false

/-- Some node cell of the row contains a matched record without an `id`. -/
def rowHasIdlessNodeRec (qg : QGraph) (row : PyDict) : Prop :=
  ∃ q ∈ qg.nodes.map Prod.fst, ∃ cell tys,
    dictLookup row q = some cell ∧
    dictLookup row ("type__" ++ q) = some tys ∧
    ∃ pairs, nodeCellPairs cell tys = Except.ok pairs ∧
      ∃ p ∈ pairs, recLacksId p.1

/-- Some edge cell of the row contains a matched record without an `id`. -/
def rowHasIdlessEdgeRec (qg : QGraph) (row : PyDict) : Prop :=
  ∃ q ∈ qg.edges.map Prod.fst, ∃ triples,
    edgeCellTriples row q = Except.ok triples ∧
    ∃ t ∈ triples, recLacksId t.1.1

/-- Consistency of the node dedup registry: KnowledgeGraph node keys are
unique and `collected_nodes` tracks exactly those keys. -/
def nodeInv (st : MapState) : Prop :=
  (st.nodesAll.map Prod.fst).Nodup ∧
  ∀ x, x ∈ st.collectedNodes ↔ x ∈ st.nodesAll.map Prod.fst

/-- Consistency of the edge dedup registry. -/
def edgeInv (st : MapState) : Prop :=
  (st.edgesAll.map Prod.fst).Nodup ∧
  ∀ x, x ∈ st.collectedEdges ↔ x ∈ st.edgesAll.map Prod.fst

/-! ## General lemmas -/

theorem str_append_assoc (a b c : String) : a ++ b ++ c = a ++ (b ++ c) := by
  apply String.ext
  simp [String.data_append, List.append_assoc]

theorem strJoin_cons (sep x : String) (xs : List String) :
    strJoin sep (x :: xs) = x ++ (if xs.isEmpty then "" else sep ++ strJoin sep xs) := by
  cases xs with
  | nil => simp [strJoin]
  | cons a t => simp [strJoin, str_append_assoc]

/-- Inversion of a successful `mkNodeReference`. -/
theorem mkNodeReference_ok {node : PyDict} {nid : String} {anon : Bool} {r : NodeReference}
    (h : mkNodeReference node nid anon = Except.ok r) :
    ∃ idProps curieFilters hc labels ps,
      nodeCurie node (if anon then "" else nid) = .ok (idProps, curieFilters, hc) ∧
      nodeLabels (nodeLabelVals node) = .ok labels ∧
      renderProps (idProps ++ nodeExtras node) = .ok ps ∧
      r = { name := if anon then "" else nid, labels := labels, prop_string := ps,
            has_curie := hc,
            filters := if curieFilters.isEmpty then ""
                       else "( " ++ strJoin " OR " curieFilters ++ ")" } := by
  simp only [mkNodeReference] at h
  cases h1 : nodeCurie node (if anon then "" else nid) with
  | error e => rw [h1] at h; simp [Bind.bind, Except.bind] at h
  | ok trip =>
    obtain ⟨idProps, curieFilters, hc⟩ := trip
    rw [h1] at h
    simp only [Bind.bind, Except.bind] at h
    cases h2 : nodeLabels (nodeLabelVals node) with
    | error e => rw [h2] at h; simp [Bind.bind, Except.bind] at h
    | ok labels =>
      rw [h2] at h
      simp only [Bind.bind, Except.bind] at h
      cases h3 : renderProps (idProps ++ nodeExtras node) with
      | error e => rw [h3] at h; simp [Bind.bind, Except.bind] at h
      | ok ps =>
        rw [h3] at h
        simp only [Bind.bind, Except.bind, pure, Except.pure, Except.ok.injEq] at h
        exact ⟨idProps, curieFilters, hc, labels, ps, rfl, rfl, h3, h.symm⟩

/-! ## Claim theorems -/

/-- Claim C1: the claim says the combined node filter contains a
parenthesized OR-group of label-membership tests whenever the pattern has a
category.  The code computes those tests (source lines 43-47,
`nodeLabelFilters`) and then discards them: for a node with one category and
two identifiers, the exposed filter holds only the identifier OR-group and
no label-membership test, although the label filter list is nonempty. -/
theorem c1_category_filter_dropped :
    mkNodeReference
        [("category", PyVal.vList [PyVal.vStr "biolink:Gene"]),
         ("id", PyVal.vList [PyVal.vStr "X:1", PyVal.vStr "X:2"])] "n0" false =
      Except.ok { name := "n0", labels := ["biolink:Gene"], prop_string := " \x7b\x7d",
                  has_curie := true,
                  filters := "( n0.id = 'X:1' OR n0.id = 'X:2')" } ∧
    nodeLabelFilters ["biolink:Gene"] "n0" = ["`biolink.Gene` in labels(`n0`)"] :=
  ⟨rfl, rfl⟩

/-- Claim C3: a NodePattern with exactly one identifier (a scalar or a
one-element list) folds it into the inline property literal as an
id-equality property and emits no identifier filter; with two or more
identifiers the compiler emits a parenthesized OR-group of exactly that many
`<var>.id = '<literal>'` terms and the identifiers stay out of the property
literal (which is the rendering of the extra properties alone). -/
theorem c3_identifier_filter_shapes (node : PyDict) (nid : String) (r : NodeReference)
    (h : mkNodeReference node nid false = Except.ok r) :
    (∀ s : String,
      (dictLookup node "id" = some (.vStr s) ∨
       dictLookup node "id" = some (.vList [.vStr s])) →
      r.filters = "" ∧
      renderProps (("id", PyVal.vStr s) :: nodeExtras node) = Except.ok r.prop_string ∧
      (s ≠ "" → ∃ rest, r.prop_string = " \x7b`id`: '" ++ s ++ "'" ++ rest)) ∧
    (∀ ss : List String, dictLookup node "id" = some (.vList (ss.map PyVal.vStr)) →
      2 ≤ ss.length →
      r.filters = "( " ++ strJoin " OR "
          (ss.map (fun cu => nid ++ ".id = '" ++ cu ++ "'")) ++ ")" ∧
      renderProps (nodeExtras node) = Except.ok r.prop_string) := by
  obtain ⟨idProps, curieFilters, hc, labels, ps, hcu, hlab, hrp, hr⟩ := mkNodeReference_ok h
  simp only [if_neg (by simp : ¬ (false = true))] at hcu hr
  constructor
  · intro s hid
    have hcu' : idProps = [("id", PyVal.vStr s)] ∧ curieFilters = [] := by
      rcases hid with hid | hid <;>
        (simp only [nodeCurie, hid, Except.ok.injEq, Prod.mk.injEq] at hcu;
         exact ⟨hcu.1.symm, hcu.2.1.symm⟩)
    obtain ⟨hip, hcf⟩ := hcu'
    subst hip hcf
    refine ⟨by simp [hr], by simpa using hrp ▸ (by rw [hr]), ?_⟩
    intro hs
    have htr : pyTruthy (PyVal.vStr s) = true := by
      simp [pyTruthy, hs]
    simp only [List.singleton_append, renderProps, List.filter_cons, htr, if_pos,
      List.mapM_cons] at hrp
    cases hmt : ((nodeExtras node).filter (fun p => pyTruthy p.2)).mapM
        (fun p => do
          let v ← cypher_prop_string p.2
          pure ("`" ++ p.1 ++ "`: " ++ v)) with
    | error e =>
        rw [hmt] at hrp
        simp [Bind.bind, Except.bind, cypher_prop_string, pure, Except.pure] at hrp
    | ok parts =>
        rw [hmt] at hrp
        simp only [Bind.bind, Except.bind, cypher_prop_string, pure, Except.pure,
          Except.ok.injEq] at hrp
        refine ⟨(if parts.isEmpty then "" else ", " ++ strJoin ", " parts) ++ "\x7d", ?_⟩
        rw [hr]
        simp only []
        rw [← hrp, strJoin_cons]
        simp only [str_append_assoc, List.isEmpty_iff]
        simp only [← str_append_assoc]
        rfl
  · intro ss hid hlen
    match ss, hlen with
    | s1 :: s2 :: tl, _ =>
      simp only [List.map_cons, nodeCurie, hid, Except.ok.injEq, Prod.mk.injEq] at hcu
      obtain ⟨hip, hcf, hhc⟩ := hcu
      subst hip
      constructor
      · rw [hr]
        simp only [← hcf]
        simp [strJoin, pyStr, List.map_map, Function.comp_def]
      · simpa using hrp ▸ (by rw [hr])

/-- Witness for C3: one identifier `CHEBI:1` folds into the literal with no
filter; two identifiers produce the two-term OR-group and an id-free
literal. -/
theorem c3_identifier_filter_shapes_witness :
    (mkNodeReference [("id", PyVal.vStr "CHEBI:1")] "n0" false =
      Except.ok { name := "n0", labels := ["biolink.NamedThing"],
                  prop_string := " \x7b`id`: 'CHEBI:1'\x7d", has_curie := true,
                  filters := "" } ∧
     ({ name := "n0", labels := ["biolink.NamedThing"],
        prop_string := " \x7b`id`: 'CHEBI:1'\x7d", has_curie := true,
        filters := "" } : NodeReference).filters = "" ∧
     renderProps (("id", PyVal.vStr "CHEBI:1") ::
        nodeExtras [("id", PyVal.vStr "CHEBI:1")]) =
       Except.ok (" \x7b`id`: 'CHEBI:1'\x7d")) ∧
    (mkNodeReference [("id", PyVal.vList [PyVal.vStr "X:1", PyVal.vStr "X:2"])] "n0" false =
      Except.ok { name := "n0", labels := ["biolink.NamedThing"],
                  prop_string := " \x7b\x7d", has_curie := true,
                  filters := "( n0.id = 'X:1' OR n0.id = 'X:2')" } ∧
     ({ name := "n0", labels := ["biolink.NamedThing"], prop_string := " \x7b\x7d",
        has_curie := true,
        filters := "( n0.id = 'X:1' OR n0.id = 'X:2')" } : NodeReference).filters =
       "( " ++ strJoin " OR "
         (["X:1", "X:2"].map (fun cu => "n0" ++ ".id = '" ++ cu ++ "'")) ++ ")" ∧
     renderProps (nodeExtras [("id", PyVal.vList [PyVal.vStr "X:1", PyVal.vStr "X:2"])]) =
       Except.ok (" \x7b\x7d")) :=
  have h1 := c3_identifier_filter_shapes [("id", PyVal.vStr "CHEBI:1")] "n0"
    { name := "n0", labels := ["biolink.NamedThing"],
      prop_string := " \x7b`id`: 'CHEBI:1'\x7d", has_curie := true, filters := "" } (by rfl)
  have h2 := c3_identifier_filter_shapes
    [("id", PyVal.vList [PyVal.vStr "X:1", PyVal.vStr "X:2"])] "n0"
    { name := "n0", labels := ["biolink.NamedThing"], prop_string := " \x7b\x7d",
      has_curie := true, filters := "( n0.id = 'X:1' OR n0.id = 'X:2')" } (by rfl)
  ⟨⟨rfl, (h1.1 "CHEBI:1" (Or.inl rfl)).1, (h1.1 "CHEBI:1" (Or.inl rfl)).2.1⟩,
   ⟨rfl, (h2.2 ["X:1", "X:2"] rfl (by decide)).1,
    (h2.2 ["X:1", "X:2"] rfl (by decide)).2⟩⟩

/-- Counterexample to claim C8: a `false`-valued extra property does not
render at all (the property literal stays empty, with no `false` token), and
a falsy value of an unsupported type (`0`) does not make compilation fail —
both because source line 58 keeps only truthy values. -/
theorem c8_counterexample :
    mkNodeReference [("foo", PyVal.vBool false), ("bar", PyVal.vInt 0)] "n0" false =
      Except.ok { name := "n0", labels := ["biolink.NamedThing"],
                  prop_string := " \x7b\x7d", has_curie := false, filters := "" } := rfl

/-- Claim C8 (amended): the property literal is built from the extra
properties after removing the reserved keys, keeping only truthy values:
truthy booleans render as bare `true`, strings render single-quoted, a
truthy value of any other type fails with the unsupported-property-type
error, and falsy values are silently dropped. -/
theorem c8_property_literal_amended :
    (∀ v : PyVal, pyTruthy v = true → (∀ b, v ≠ PyVal.vBool b) →
      (∀ s, v ≠ PyVal.vStr s) →
      cypher_prop_string v =
        Except.error ("Unsupported property type: " ++ pyTypeName v ++ ".")) ∧
    cypher_prop_string (PyVal.vBool true) = Except.ok "true" ∧
    (∀ s : String, cypher_prop_string (PyVal.vStr s) = Except.ok ("'" ++ s ++ "'")) ∧
    (∀ (k : String) (v : PyVal) (props : PyDict), pyTruthy v = false →
      renderProps ((k, v) :: props) = renderProps props) ∧
    (∀ (node : PyDict) (nid : String) (r : NodeReference),
      mkNodeReference node nid false = Except.ok r →
      ∃ idProps cf hc, nodeCurie node nid = Except.ok (idProps, cf, hc) ∧
        renderProps (idProps ++ nodeExtras node) = Except.ok r.prop_string) := by
  refine ⟨?_, rfl, fun s => rfl, ?_, ?_⟩
  · intro v hv hb hs
    cases v with
    | vBool _ => exact absurd rfl (hb _)
    | vStr _ => exact absurd rfl (hs _)
    | vNone => rfl
    | vInt n => rfl
    | vList xs => rfl
    | vDict d => rfl
  · intro k v props hf
    simp [renderProps, List.filter_cons, hf]
  · intro node nid r h
    obtain ⟨idProps, cf, hc, labels, ps, hcu, hlab, hrp, hr⟩ := mkNodeReference_ok h
    simp only [if_neg (by simp : ¬ (false = true))] at hcu
    exact ⟨idProps, cf, hc, hcu, by rw [hr]; exact hrp⟩

/-- Witness for C8 (amended): a truthy int property fails compilation with
the unsupported-type error. -/
theorem c8_property_literal_amended_witness :
    pyTruthy (PyVal.vInt 5) = true ∧
    cypher_prop_string (PyVal.vInt 5) = Except.error "Unsupported property type: int." :=
  ⟨rfl, c8_property_literal_amended.1 (PyVal.vInt 5) rfl (fun _ h => nomatch h)
    (fun _ h => nomatch h)⟩

/-- Claim C10: a NodePattern whose category entry is absent gets the default
category `biolink.NamedThing`, so its first textual render carries the
label annotation `` :`biolink.NamedThing` ``. -/
theorem c10_default_category (node : PyDict) (nid : String) (r : NodeReference)
    (hcat : dictLookup node "category" = none)
    (h : mkNodeReference node nid false = Except.ok r) :
    r.labels = ["biolink.NamedThing"] ∧
    nodeFirstStr r = r.name ++ ":`biolink.NamedThing`" ++ r.prop_string := by
  obtain ⟨idProps, cf, hc, labels, ps, hcu, hlab, hrp, hr⟩ := mkNodeReference_ok h
  have hv : nodeLabelVals node = [PyVal.vStr "biolink.NamedThing"] := by
    simp [nodeLabelVals, hcat]
  rw [hv] at hlab
  rw [show nodeLabels [PyVal.vStr "biolink.NamedThing"] =
        Except.ok ["biolink.NamedThing"] from rfl] at hlab
  have : labels = ["biolink.NamedThing"] := (Except.ok.inj hlab).symm
  subst this
  exact ⟨by rw [hr], by rw [hr]; rfl⟩

/-- Witness for C10 at the empty node pattern. -/
theorem c10_default_category_witness :
    dictLookup [] "category" = none ∧
    mkNodeReference [] "n0" false =
      Except.ok { name := "n0", labels := ["biolink.NamedThing"],
                  prop_string := " \x7b\x7d", has_curie := false, filters := "" } ∧
    (({ name := "n0", labels := ["biolink.NamedThing"], prop_string := " \x7b\x7d",
        has_curie := false, filters := "" } : NodeReference).labels =
        ["biolink.NamedThing"] ∧
     nodeFirstStr { name := "n0", labels := ["biolink.NamedThing"],
                    prop_string := " \x7b\x7d", has_curie := false, filters := "" } =
       ({ name := "n0", labels := ["biolink.NamedThing"], prop_string := " \x7b\x7d",
          has_curie := false, filters := "" } : NodeReference).name ++
         ":`biolink.NamedThing`" ++
         ({ name := "n0", labels := ["biolink.NamedThing"], prop_string := " \x7b\x7d",
            has_curie := false, filters := "" } : NodeReference).prop_string) :=
  ⟨rfl, rfl,
   c10_default_category [] "n0"
     { name := "n0", labels := ["biolink.NamedThing"], prop_string := " \x7b\x7d",
       has_curie := false, filters := "" } rfl (by rfl)⟩

/-- The code's `has_curie` flag coincides with the presence of a string- or
list-valued id entry. -/
theorem has_curie_eq_hasIdEntry {node : PyDict} {nid : String} {r : NodeReference}
    (h : mkNodeReference node nid false = Except.ok r) :
    r.has_curie = nodeHasIdEntry node := by
  obtain ⟨idProps, cf, hc, labels, ps, hcu, hlab, hrp, hr⟩ := mkNodeReference_ok h
  simp only [if_neg (by simp : ¬ (false = true))] at hcu
  rw [hr]
  simp only []
  cases hid : dictLookup node "id" with
  | none =>
      simp only [nodeCurie, hid, Except.ok.injEq, Prod.mk.injEq] at hcu
      simp [nodeHasIdEntry, hid, ← hcu.2.2]
  | some v =>
      cases v with
      | vNone =>
          simp only [nodeCurie, hid, Except.ok.injEq, Prod.mk.injEq] at hcu
          simp [nodeHasIdEntry, hid, ← hcu.2.2]
      | vStr s =>
          simp only [nodeCurie, hid, Except.ok.injEq, Prod.mk.injEq] at hcu
          simp [nodeHasIdEntry, hid, ← hcu.2.2]
      | vList cs =>
          cases cs with
          | nil =>
              simp only [nodeCurie, hid, Except.ok.injEq, Prod.mk.injEq] at hcu
              simp [nodeHasIdEntry, hid, ← hcu.2.2]
          | cons a t =>
              cases t with
              | nil =>
                  simp only [nodeCurie, hid, Except.ok.injEq, Prod.mk.injEq] at hcu
                  simp [nodeHasIdEntry, hid, ← hcu.2.2]
              | cons b u =>
                  simp only [nodeCurie, hid, Except.ok.injEq, Prod.mk.injEq] at hcu
                  simp [nodeHasIdEntry, hid, ← hcu.2.2]
      | vBool b => simp [nodeCurie, hid] at hcu
      | vInt n => simp [nodeCurie, hid] at hcu
      | vDict d => simp [nodeCurie, hid] at hcu

/-- Counterexample to claim C5: an object pattern whose id entry is the
empty list carries no identifiers, so by the claim the edge (with its
subject also unbound) must stay un-reversed; the code nevertheless sets
`has_curie` (lines 33-42) and reverses the edge, rendering the object first
with the `<-` token. -/
theorem c5_counterexample :
    mkNodeReference [] "n0" false =
      Except.ok { name := "n0", labels := ["biolink.NamedThing"],
                  prop_string := " \x7b\x7d", has_curie := false, filters := "" } ∧
    mkNodeReference [("id", PyVal.vList [])] "n1" false =
      Except.ok { name := "n1", labels := ["biolink.NamedThing"],
                  prop_string := " \x7b\x7d", has_curie := true, filters := "" } ∧
    nodeCarriesIds [] = false ∧
    nodeCarriesIds [("id", PyVal.vList [])] = false ∧
    processEdge
      [("n0", { name := "n0", labels := ["biolink.NamedThing"],
                prop_string := " \x7b\x7d", has_curie := false, filters := "" }),
       ("n1", { name := "n1", labels := ["biolink.NamedThing"],
                prop_string := " \x7b\x7d", has_curie := true, filters := "" })]
      { name := "e0", label := none, filters := "", directed := true }
      [("subject", PyVal.vStr "n0"), ("object", PyVal.vStr "n1")] (-1) [] 0 =
      Except.ok
        (["MATCH (n1:`biolink.NamedThing` \x7b\x7d)<-[e0]-(n0:`biolink.NamedThing` \x7b\x7d)"],
         [("n0", 1), ("n1", 1)], 1, true) :=
  ⟨rfl, rfl, rfl, rfl, rfl⟩

/-- Claim C5 (amended): the assembler reverses an edge — rendering the
object endpoint first, with the `<-` token when directed — exactly when the
object pattern has an id entry (a string or a list, even the empty list,
which carries no identifier) and the subject pattern does not; every other
combination is rendered un-reversed, subject endpoint first. -/
theorem c5_reversal_rule_amended
    (nrefs : NodeRefs) (eref : EdgeReference) (ed : PyDict) (mc : Int)
    (c : Counts) (enum : Nat)
    (sId oId : String) (ndS ndO : PyDict) (srcRef tgtRef : NodeReference)
    (cls : List String) (c' : Counts) (en' : Nat) (rev : Bool)
    (hs : dictLookup ed "subject" = some (.vStr sId))
    (ho : dictLookup ed "object" = some (.vStr oId))
    (hfs : lookupNodeRef nrefs sId = .ok srcRef)
    (hfo : lookupNodeRef nrefs oId = .ok tgtRef)
    (hmkS : mkNodeReference ndS sId false = .ok srcRef)
    (hmkO : mkNodeReference ndO oId false = .ok tgtRef)
    (h : processEdge nrefs eref ed mc c enum = .ok (cls, c', en', rev)) :
    (rev = (nodeHasIdEntry ndO && !nodeHasIdEntry ndS)) ∧
    (rev = true →
      cls.head? = some ("MATCH (" ++ (renderNodeAt tgtRef c oId).1 ++ ")" ++
        (edgeStr eref enum true).1 ++ "(" ++
        (renderNodeAt srcRef (renderNodeAt tgtRef c oId).2 sId).1 ++ ")") ∧
      (eref.directed = true →
        (edgeStr eref enum true).1 =
          "<-[" ++ (if enum = 0 then edgeInnardsFirst eref else eref.name) ++ "]-")) ∧
    (rev = false →
      cls.head? = some ("MATCH (" ++ (renderNodeAt srcRef c sId).1 ++ ")" ++
        (edgeStr eref enum false).1 ++ "(" ++
        (renderNodeAt tgtRef (renderNodeAt srcRef c sId).2 oId).1 ++ ")")) := by
  simp only [processEdge, hs, ho, hfs, hfo, Option.elim, Bind.bind, Except.bind] at h
  have hcS := has_curie_eq_hasIdEntry hmkS
  have hcO := has_curie_eq_hasIdEntry hmkO
  cases hb : (tgtRef.has_curie && !srcRef.has_curie) with
  | true =>
      simp only [hb, if_pos] at h
      simp only [pure, Except.pure, Except.ok.injEq, Prod.mk.injEq] at h
      obtain ⟨hcls, hrest⟩ := h
      refine ⟨?_, ?_, ?_⟩
      · rw [hrest.2.2.symm, ← hcS, ← hcO, hb]
      · intro hrv
        refine ⟨by rw [← hcls]; rfl, ?_⟩
        intro hdir
        simp [edgeStr, hdir]
      · intro hrv
        rw [hrest.2.2.symm] at hrv
        exact absurd hrv (by simp)
  | false =>
      simp only [hb, if_neg, Bool.false_eq_true, if_false] at h
      simp only [pure, Except.pure, Except.ok.injEq, Prod.mk.injEq] at h
      obtain ⟨hcls, hrest⟩ := h
      refine ⟨?_, ?_, ?_⟩
      · rw [hrest.2.2.symm, ← hcS, ← hcO, hb]
      · intro hrv
        rw [hrest.2.2.symm] at hrv
        exact absurd hrv (by simp)
      · intro hrv
        exact (by rw [← hcls]; rfl)

/-- Witness for C5 (amended): an object with id entry `X:1` and an unbound
subject make the edge loop reverse the pattern and put the object first. -/
theorem c5_reversal_rule_amended_witness :
    mkNodeReference [] "n0" false =
      Except.ok { name := "n0", labels := ["biolink.NamedThing"],
                  prop_string := " \x7b\x7d", has_curie := false, filters := "" } ∧
    mkNodeReference [("id", PyVal.vStr "X:1")] "n1" false =
      Except.ok { name := "n1", labels := ["biolink.NamedThing"],
                  prop_string := " \x7b`id`: 'X:1'\x7d", has_curie := true,
                  filters := "" } ∧
    processEdge
      [("n0", { name := "n0", labels := ["biolink.NamedThing"],
                prop_string := " \x7b\x7d", has_curie := false, filters := "" }),
       ("n1", { name := "n1", labels := ["biolink.NamedThing"],
                prop_string := " \x7b`id`: 'X:1'\x7d", has_curie := true,
                filters := "" })]
      { name := "e0", label := none, filters := "", directed := false }
      [("subject", PyVal.vStr "n0"), ("object", PyVal.vStr "n1")] (-1) [] 0 =
      Except.ok
        (["MATCH (n1:`biolink.NamedThing` \x7b`id`: 'X:1'\x7d)-[e0]-(n0:`biolink.NamedThing` \x7b\x7d)"],
         [("n0", 1), ("n1", 1)], 1, true) ∧
    (true = (nodeHasIdEntry [("id", PyVal.vStr "X:1")] && !nodeHasIdEntry [])) :=
  ⟨rfl, rfl, rfl,
   (c5_reversal_rule_amended
      [("n0", { name := "n0", labels := ["biolink.NamedThing"],
                prop_string := " \x7b\x7d", has_curie := false, filters := "" }),
       ("n1", { name := "n1", labels := ["biolink.NamedThing"],
                prop_string := " \x7b`id`: 'X:1'\x7d", has_curie := true,
                filters := "" })]
      { name := "e0", label := none, filters := "", directed := false }
      [("subject", PyVal.vStr "n0"), ("object", PyVal.vStr "n1")] (-1) [] 0
      "n0" "n1" [] [("id", PyVal.vStr "X:1")]
      { name := "n0", labels := ["biolink.NamedThing"], prop_string := " \x7b\x7d",
        has_curie := false, filters := "" }
      { name := "n1", labels := ["biolink.NamedThing"],
        prop_string := " \x7b`id`: 'X:1'\x7d", has_curie := true, filters := "" }
      ["MATCH (n1:`biolink.NamedThing` \x7b`id`: 'X:1'\x7d)-[e0]-(n0:`biolink.NamedThing` \x7b\x7d)"]
      [("n0", 1), ("n1", 1)] 1 true
      rfl rfl (by rfl) (by rfl) (by rfl) (by rfl) (by rfl)).1⟩

theorem getNum_setNum_self (c : Counts) (k : String) (n : Nat) :
    getNum (setNum c k n) k = n := by
  simp [getNum, setNum]

theorem getNum_setNum_other {k k' : String} (h : k' ≠ k) (c : Counts) (n : Nat) :
    getNum (setNum c k n) k' = getNum c k' := by
  simp only [getNum, setNum]
  rw [List.find?_cons_of_neg _ (by simp [Ne.symm h])]
  congr 1
  induction c with
  | nil => rfl
  | cons a t ih =>
      by_cases ha : a.1 = k
      · rw [List.filter_cons_of_neg (by simp [ha]),
          List.find?_cons_of_neg _ (by simp [ha, Ne.symm h])]
        exact ih
      · rw [List.filter_cons_of_pos (by simp [ha])]
        by_cases ha' : a.1 = k'
        · rw [List.find?_cons_of_pos _ (by simp [ha']), List.find?_cons_of_pos _ (by simp [ha'])]
        · rw [List.find?_cons_of_neg _ (by simp [ha']), List.find?_cons_of_neg _ (by simp [ha'])]
          exact ih

theorem renderNodeAt_snd_self (r : NodeReference) (c : Counts) (k : String) :
    1 ≤ getNum ((renderNodeAt r c k).2) k := by
  simp only [renderNodeAt, renderNodeRef]
  split <;> simp [getNum_setNum_self]

theorem renderNodeAt_pos_preserved {c : Counts} {k : String} (h : 1 ≤ getNum c k)
    (r : NodeReference) (k' : String) : 1 ≤ getNum ((renderNodeAt r c k').2) k := by
  by_cases hk : k = k'
  · subst hk; exact renderNodeAt_snd_self r c k
  · simp only [renderNodeAt, renderNodeRef]
    split <;> (rw [getNum_setNum_other hk]; exact h)

theorem renderNodeAt_fst_of_pos {c : Counts} {k : String} (h : 1 ≤ getNum c k)
    (r : NodeReference) : (renderNodeAt r c k).1 = r.name := by
  simp only [renderNodeAt, renderNodeRef]
  rw [if_neg (by omega)]

/-- Counterexample to claim C6: with a degree bound of 5 on an edge whose
object (`n1`) is identifier-bound and whose subject (`n0`) is unbound (the
reversed orientation), the appended constraint bounds `indegree(n1) +
outdegree(n1)` — the bound endpoint — while the unbound endpoint `n0` gets
no constraint. -/
theorem c6_counterexample :
    cypher_query_fragment_match
      ⟨[("n0", [("category", PyVal.vStr "biolink:Gene")]),
        ("n1", [("id", PyVal.vList [PyVal.vStr "X:1", PyVal.vStr "X:2"])])],
       [("e0", [("subject", PyVal.vStr "n0"), ("object", PyVal.vStr "n1"),
                ("predicate", PyVal.vStr "biolink:treats")])]⟩ 5 =
      Except.ok
        ("MATCH (n1:`biolink.NamedThing` \x7b\x7d) WHERE ( n1.id = 'X:1' OR n1.id = 'X:2') WITH n1 MATCH (n1)<-[e0:`biolink.treats`]-(n0:`biolink.Gene` \x7b\x7d) \nWHERE (( n1.id = 'X:1' OR n1.id = 'X:2'))\nAND ((indegree(n1) + outdegree(n1) ) < 5)") :=
  rfl

/-- Claim C6 (amended): when a maximum-connectivity bound is configured
(greater than -1), the edge's filter clause gains one degree constraint
requiring the object endpoint's in-degree plus out-degree strictly below the
bound — always on the object reference, regardless of which endpoint is
unbound; with no bound configured the filter clause holds only the
node/edge filter groups and no degree constraint. -/
theorem c6_degree_guard_amended
    (nrefs : NodeRefs) (eref : EdgeReference) (ed : PyDict) (mc : Int)
    (c : Counts) (enum : Nat) (sId oId : String) (srcRef tgtRef : NodeReference)
    (cls : List String) (c' : Counts) (en' : Nat) (rev : Bool)
    (hs : dictLookup ed "subject" = some (.vStr sId))
    (ho : dictLookup ed "object" = some (.vStr oId))
    (hfs : lookupNodeRef nrefs sId = .ok srcRef)
    (hfo : lookupNodeRef nrefs oId = .ok tgtRef)
    (h : processEdge nrefs eref ed mc c enum = .ok (cls, c', en', rev)) :
    cls.tail =
      (let base := ([srcRef.filters, tgtRef.filters, eref.filters].filter
          (fun f => f ≠ "")).map (fun f => "(" ++ f ++ ")")
       let deg := if -1 < mc then
           ["((indegree(" ++ tgtRef.name ++ ") + outdegree(" ++ tgtRef.name ++ ") ) < "
             ++ toString mc ++ ")"]
         else []
       if (base ++ deg).isEmpty then []
       else ["\nWHERE " ++ strJoin "\nAND " (base ++ deg)]) := by
  simp only [processEdge, hs, ho, hfs, hfo, Option.elim, Bind.bind, Except.bind] at h
  cases hb : (tgtRef.has_curie && !srcRef.has_curie) with
  | true =>
      simp only [hb, if_pos] at h
      simp only [pure, Except.pure, Except.ok.injEq, Prod.mk.injEq] at h
      obtain ⟨hcls, hrest⟩ := h
      have h1 : 1 ≤ getNum ((renderNodeAt srcRef (renderNodeAt tgtRef c oId).2 sId).2) oId :=
        renderNodeAt_pos_preserved (renderNodeAt_snd_self tgtRef c oId) srcRef sId
      have hf1 := renderNodeAt_fst_of_pos h1 tgtRef
      have h2 : 1 ≤ getNum ((renderNodeAt tgtRef
          ((renderNodeAt srcRef (renderNodeAt tgtRef c oId).2 sId).2) oId).2) oId :=
        renderNodeAt_snd_self tgtRef _ oId
      have hf2 := renderNodeAt_fst_of_pos h2 tgtRef
      rw [← hcls]
      simp only [List.tail_cons, hf1, hf2, gt_iff_lt]
      by_cases hmc : (-1 : Int) < mc
      · simp [hmc]
      · simp [hmc]
  | false =>
      simp only [hb, if_neg, Bool.false_eq_true, if_false] at h
      simp only [pure, Except.pure, Except.ok.injEq, Prod.mk.injEq] at h
      obtain ⟨hcls, hrest⟩ := h
      have h1 : 1 ≤ getNum ((renderNodeAt tgtRef (renderNodeAt srcRef c sId).2 oId).2) oId :=
        renderNodeAt_snd_self tgtRef _ oId
      have hf1 := renderNodeAt_fst_of_pos h1 tgtRef
      have h2 : 1 ≤ getNum ((renderNodeAt tgtRef
          ((renderNodeAt tgtRef (renderNodeAt srcRef c sId).2 oId).2) oId).2) oId :=
        renderNodeAt_snd_self tgtRef _ oId
      have hf2 := renderNodeAt_fst_of_pos h2 tgtRef
      rw [← hcls]
      simp only [List.tail_cons, hf1, hf2, gt_iff_lt]
      by_cases hmc : (-1 : Int) < mc
      · simp [hmc]
      · simp [hmc]

/-- Witness for C6 (amended) at a concrete reversed edge with bound 5: the
filter clause holds exactly the degree constraint, on the object's name. -/
theorem c6_degree_guard_amended_witness :
    processEdge
      [("n0", { name := "n0", labels := ["biolink.NamedThing"],
                prop_string := " \x7b\x7d", has_curie := false, filters := "" }),
       ("n1", { name := "n1", labels := ["biolink.NamedThing"],
                prop_string := " \x7b`id`: 'X:1'\x7d", has_curie := true,
                filters := "" })]
      { name := "e0", label := none, filters := "", directed := false }
      [("subject", PyVal.vStr "n0"), ("object", PyVal.vStr "n1")] 5 [] 0 =
      Except.ok
        (["MATCH (n1:`biolink.NamedThing` \x7b`id`: 'X:1'\x7d)-[e0]-(n0:`biolink.NamedThing` \x7b\x7d)",
          "\nWHERE ((indegree(n1) + outdegree(n1) ) < 5)"],
         [("n1", 3), ("n0", 1)], 1, true) ∧
    ["MATCH (n1:`biolink.NamedThing` \x7b`id`: 'X:1'\x7d)-[e0]-(n0:`biolink.NamedThing` \x7b\x7d)",
     "\nWHERE ((indegree(n1) + outdegree(n1) ) < 5)"].tail =
      ["\nWHERE ((indegree(n1) + outdegree(n1) ) < 5)"] :=
  ⟨rfl, by
    have := c6_degree_guard_amended
      [("n0", { name := "n0", labels := ["biolink.NamedThing"],
                prop_string := " \x7b\x7d", has_curie := false, filters := "" }),
       ("n1", { name := "n1", labels := ["biolink.NamedThing"],
                prop_string := " \x7b`id`: 'X:1'\x7d", has_curie := true,
                filters := "" })]
      { name := "e0", label := none, filters := "", directed := false }
      [("subject", PyVal.vStr "n0"), ("object", PyVal.vStr "n1")] 5 [] 0
      "n0" "n1"
      { name := "n0", labels := ["biolink.NamedThing"], prop_string := " \x7b\x7d",
        has_curie := false, filters := "" }
      { name := "n1", labels := ["biolink.NamedThing"],
        prop_string := " \x7b`id`: 'X:1'\x7d", has_curie := true, filters := "" }
      ["MATCH (n1:`biolink.NamedThing` \x7b`id`: 'X:1'\x7d)-[e0]-(n0:`biolink.NamedThing` \x7b\x7d)",
       "\nWHERE ((indegree(n1) + outdegree(n1) ) < 5)"]
      [("n1", 3), ("n0", 1)] 1 true
      rfl rfl (by rfl) (by rfl) (by rfl)
    simp only at this
    exact this⟩

/-- Each accumulating projection clause produced by step 3 of the assembler
lists the identifier-bound nodes processed so far (after the given prefix). -/
theorem boundIdClauses_with_mem (refs : NodeRefs) :
    ∀ (ns soFar : List String) (c : Counts) (cls : List String) (c' : Counts),
      boundIdClauses refs ns soFar c = .ok (cls, c') →
      ∀ k, k < ns.length →
        ("WITH " ++ strJoin ", " (soFar ++ ns.take (k + 1))) ∈ cls := by
  intro ns
  induction ns with
  | nil => intro soFar c cls c' h k hk; exact absurd hk (by simp)
  | cons n tl ih =>
      intro soFar c cls c' h k hk
      cases hlr : lookupNodeRef refs n with
      | error e => rw [boundIdClauses, hlr] at h; simp [Bind.bind, Except.bind] at h
      | ok r =>
          rw [boundIdClauses, hlr] at h
          simp only [Bind.bind, Except.bind] at h
          cases hrec : boundIdClauses refs tl (soFar ++ [n]) (renderNodeAt r c n).2 with
          | error e => rw [hrec] at h; simp [Bind.bind, Except.bind] at h
          | ok pr =>
              obtain ⟨cls2, c2⟩ := pr
              rw [hrec] at h
              simp only [pure, Except.pure, Except.ok.injEq, Prod.mk.injEq] at h
              obtain ⟨hcls, hc2⟩ := h
              rw [← hcls]
              cases k with
              | zero =>
                  simp [List.mem_append, List.mem_cons]
              | succ k' =>
                  have hmem := ih (soFar ++ [n]) (renderNodeAt r c n).2 cls2 c2 hrec k'
                    (Nat.lt_of_succ_lt_succ hk)
                  simp only [List.take_succ_cons, List.mem_append, List.mem_cons]
                  rw [← List.append_cons] at hmem
                  tauto

/-- Counterexample to claim C7: a single orphaned identifier-bound node is
matched by two standalone match clauses — once by the orphan step and again
by the bound-node step, which does not exclude nodes already matched. -/
theorem c7_counterexample :
    cypher_query_fragment_match ⟨[("n0", [("id", PyVal.vStr "X:1")])], []⟩ (-1) =
      Except.ok
        "MATCH (n0:`biolink.NamedThing` \x7b`id`: 'X:1'\x7d) MATCH (n0) WITH n0" :=
  rfl

/-- Claim C7 (amended): the assembler emits a standalone match clause plus
accumulating projection clause for every identifier-bound node — including
nodes already matched as orphaned in step 2, which are therefore matched by
two standalone clauses — and each projection clause lists the
identifier-bound nodes processed so far in step 3 (not the orphan-matched
ones). -/
theorem c7_bound_nodes_amended :
    (∀ (qg : QGraph) (n : String) (nd : PyDict), (n, nd) ∈ qg.nodes →
      pyTruthy ((dictLookup nd "id").getD .vNone) = true → n ∈ nodesWithId qg) ∧
    (∀ (refs : NodeRefs) (ns soFar : List String) (c : Counts) (cls : List String)
      (c' : Counts), boundIdClauses refs ns soFar c = .ok (cls, c') →
      ∀ k, k < ns.length →
        ("WITH " ++ strJoin ", " (soFar ++ ns.take (k + 1))) ∈ cls) := by
  constructor
  · intro qg n nd hmem htr
    simp only [nodesWithId, List.mem_map, List.mem_filter]
    exact ⟨(n, nd), ⟨hmem, htr⟩, rfl⟩
  · exact boundIdClauses_with_mem

/-- Witness for C7 (amended): the orphaned identifier-bound node `n0` is in
`nodes_with_id`, and the projection clause after its standalone match is
`WITH n0`. -/
theorem c7_bound_nodes_amended_witness :
    (("n0", [("id", PyVal.vStr "X:1")]) ∈
      (QGraph.mk [("n0", [("id", PyVal.vStr "X:1")])] []).nodes ∧
     pyTruthy ((dictLookup [("id", PyVal.vStr "X:1")] "id").getD .vNone) = true ∧
     "n0" ∈ nodesWithId ⟨[("n0", [("id", PyVal.vStr "X:1")])], []⟩) ∧
    (boundIdClauses
       [("n0", { name := "n0", labels := ["biolink.NamedThing"],
                 prop_string := " \x7b`id`: 'X:1'\x7d", has_curie := true,
                 filters := "" })] ["n0"] [] [] =
       Except.ok (["MATCH (n0:`biolink.NamedThing` \x7b`id`: 'X:1'\x7d)", "WITH n0"],
                  [("n0", 1)]) ∧
     ("WITH " ++ strJoin ", " (([] : List String) ++ ["n0"].take 1)) ∈
       ["MATCH (n0:`biolink.NamedThing` \x7b`id`: 'X:1'\x7d)", "WITH n0"]) :=
  ⟨⟨by decide, rfl,
    c7_bound_nodes_amended.1 ⟨[("n0", [("id", PyVal.vStr "X:1")])], []⟩ "n0"
      [("id", PyVal.vStr "X:1")] (by decide) rfl⟩,
   ⟨rfl,
    c7_bound_nodes_amended.2
      [("n0", { name := "n0", labels := ["biolink.NamedThing"],
                prop_string := " \x7b`id`: 'X:1'\x7d", has_curie := true,
                filters := "" })] ["n0"] [] []
      ["MATCH (n0:`biolink.NamedThing` \x7b`id`: 'X:1'\x7d)", "WITH n0"]
      [("n0", 1)] (by rfl) 0 (by decide)⟩⟩

/-! ## Result-mapper lemmas -/
theorem processNodeElems_ok (elems : List (PyVal × PyVal)) :
    ∀ (st : MapState) (acc : List PyVal) (st' : MapState) (out : List PyVal),
      processNodeElems st elems acc = .ok (st', out) →
      ∃ ids, elems.mapM elemNodeId = .ok ids ∧ out = acc ++ ids ∧
        (∃ t, st'.nodesAll = st.nodesAll ++ t) ∧
        st'.edgesAll = st.edgesAll ∧ st'.collectedEdges = st.collectedEdges ∧
        (nodeInv st → nodeInv st' ∧
          ∀ x, x ∈ st'.nodesAll.map Prod.fst ↔
            (x ∈ st.nodesAll.map Prod.fst ∨ x ∈ ids)) := by
  induction elems with
  | nil =>
      intro st acc st' out h
      simp only [processNodeElems, Except.ok.injEq, Prod.mk.injEq] at h
      obtain ⟨h1, h2⟩ := h
      subst h1 h2
      exact ⟨[], rfl, by simp, ⟨[], by simp⟩, rfl, rfl, fun hi => ⟨hi, by simp⟩⟩
  | cons p rest ih =>
      obtain ⟨nv, ty⟩ := p
      intro st acc st' out h
      cases nv with
      | vDict d =>
          simp only [processNodeElems, Bind.bind, Except.bind] at h
          cases hpop : popId d with
          | error e => rw [hpop] at h; simp at h
          | ok pr =>
              obtain ⟨idV, d'⟩ := pr
              rw [hpop] at h
              simp only [Except.bind] at h
              cases htr : pyTruthy idV with
              | false => rw [htr] at h; simp at h
              | true =>
                  rw [htr] at h
                  simp only [if_pos] at h
                  obtain ⟨ids', hmapM, hout, ⟨t, happ⟩, hed, hce, hinv⟩ :=
                    ih _ (acc ++ [idV]) st' out h
                  have helem : elemNodeId (PyVal.vDict d, ty) = .ok idV := by
                    simp [elemNodeId, Bind.bind, Except.bind, hpop, htr, pure, Except.pure]
                  refine ⟨idV :: ids', ?_, ?_, ?_, ?_, ?_, ?_⟩
                  · simp only [List.mapM_cons, helem, hmapM, Bind.bind, Except.bind, pure,
                      Except.pure]
                  · simp [hout]
                  · by_cases hmem : idV ∈ st.collectedNodes
                    · rw [if_pos hmem] at happ
                      exact ⟨t, happ⟩
                    · rw [if_neg hmem] at happ
                      simp only at happ
                      exact ⟨(idV, mkKNode d') :: t, by rw [happ]; simp⟩
                  · by_cases hmem : idV ∈ st.collectedNodes
                    · rw [if_pos hmem] at hed; exact hed
                    · rw [if_neg hmem] at hed; exact hed
                  · by_cases hmem : idV ∈ st.collectedNodes
                    · rw [if_pos hmem] at hce; exact hce
                    · rw [if_neg hmem] at hce; exact hce
                  · intro hni
                    by_cases hmem : idV ∈ st.collectedNodes
                    · rw [if_pos hmem] at hinv
                      obtain ⟨hni', hiff⟩ := hinv hni
                      refine ⟨hni', ?_⟩
                      intro x
                      have hx := hiff x
                      have hidk : idV ∈ st.nodesAll.map Prod.fst := (hni.2 idV).1 hmem
                      simp only [List.mem_cons]
                      constructor
                      · intro hk
                        rcases hx.1 hk with hk' | hk'
                        · exact Or.inl hk'
                        · exact Or.inr (Or.inr hk')
                      · rintro (hk | hk | hk)
                        · exact hx.2 (Or.inl hk)
                        · exact hx.2 (Or.inl (hk ▸ hidk))
                        · exact hx.2 (Or.inr hk)
                    · rw [if_neg hmem] at hinv
                      have hidk : idV ∉ st.nodesAll.map Prod.fst :=
                        fun hk => hmem ((hni.2 idV).2 hk)
                      have hni'' : nodeInv
                          { st with
                            collectedNodes := st.collectedNodes ++ [idV],
                            nodesAll := st.nodesAll ++ [(idV, mkKNode d')] } := by
                        constructor
                        · simp only [List.map_append, List.map_cons, List.map_nil]
                          rw [List.nodup_append]
                          refine ⟨hni.1, List.nodup_singleton _, ?_⟩
                          intro a ha hb
                          simp only [List.mem_singleton] at hb
                          subst hb
                          exact hidk ha
                        · intro x
                          simp only [List.map_append, List.mem_append, List.map_cons,
                            List.mem_singleton, List.map_nil, List.mem_cons]
                          constructor
                          · rintro (hx | hx)
                            · exact Or.inl ((hni.2 x).1 hx)
                            · simp at hx; exact Or.inr (by simp [hx])
                          · rintro (hx | hx)
                            · exact Or.inl ((hni.2 x).2 hx)
                            · simp at hx; exact Or.inr (by simp [hx])
                      obtain ⟨hni', hiff⟩ := hinv hni''
                      refine ⟨hni', ?_⟩
                      intro x
                      have hx := hiff x
                      simp only [List.map_append, List.mem_append, List.map_cons,
                        List.mem_singleton, List.map_nil, List.mem_cons] at hx
                      simp only [List.mem_cons]
                      constructor
                      · intro hk
                        rcases hx.1 hk with (hk' | hk') | hk'
                        · exact Or.inl hk'
                        · simp at hk'; exact Or.inr (Or.inl hk')
                        · exact Or.inr (Or.inr hk')
                      · rintro (hk | hk | hk)
                        · exact hx.2 (Or.inl (Or.inl hk))
                        · exact hx.2 (Or.inl (Or.inr (by simp [hk])))
                        · exact hx.2 (Or.inr hk)
      | vStr s => simp [processNodeElems, Bind.bind, Except.bind] at h
      | vNone => simp [processNodeElems, Bind.bind, Except.bind] at h
      | vBool b => simp [processNodeElems, Bind.bind, Except.bind] at h
      | vInt n => simp [processNodeElems, Bind.bind, Except.bind] at h
      | vList xs => simp [processNodeElems, Bind.bind, Except.bind] at h

theorem processEdgeElems_ok (elems : List ((PyVal × String) × PyVal)) :
    ∀ (st : MapState) (acc : List PyVal) (st' : MapState) (out : List PyVal),
      processEdgeElems st elems acc = .ok (st', out) →
      ∃ ids, elems.mapM elemEdgeId = .ok ids ∧ out = acc ++ ids ∧
        (∃ t, st'.edgesAll = st.edgesAll ++ t) ∧
        st'.nodesAll = st.nodesAll ∧ st'.collectedNodes = st.collectedNodes ∧
        (edgeInv st → edgeInv st') := by
  induction elems with
  | nil =>
      intro st acc st' out h
      simp only [processEdgeElems, Except.ok.injEq, Prod.mk.injEq] at h
      obtain ⟨h1, h2⟩ := h
      subst h1 h2
      exact ⟨[], rfl, by simp, ⟨[], by simp⟩, rfl, rfl, fun hi => hi⟩
  | cons p rest ih =>
      obtain ⟨⟨ev, ety⟩, pairV⟩ := p
      intro st acc st' out h
      cases ev with
      | vDict d =>
          simp only [processEdgeElems, Bind.bind, Except.bind] at h
          cases hpop : popId d with
          | error e => rw [hpop] at h; simp at h
          | ok pr =>
              obtain ⟨idV, d'⟩ := pr
              rw [hpop] at h
              simp only [Except.bind] at h
              have helem : elemEdgeId ((PyVal.vDict d, ety), pairV) = .ok idV := by
                simp [elemEdgeId, Bind.bind, Except.bind, hpop, pure, Except.pure]
              by_cases hmem : idV ∈ st.collectedEdges
              · rw [if_pos hmem] at h
                simp only [pure, Except.pure, Except.bind] at h
                obtain ⟨ids', hmapM, hout, ⟨t, happ⟩, hnd, hcn, hinv⟩ :=
                  ih st (acc ++ [idV]) st' out h
                refine ⟨idV :: ids', ?_, by simp [hout], ⟨t, happ⟩, hnd, hcn, hinv⟩
                simp only [List.mapM_cons, helem, hmapM, Bind.bind, Except.bind, pure,
                  Except.pure]
              · rw [if_neg hmem] at h
                cases pairV with
                | vList xs =>
                    match xs with
                    | [] => simp [Bind.bind, Except.bind] at h
                    | [a] => simp [Bind.bind, Except.bind] at h
                    | a :: b :: c :: t => simp [Bind.bind, Except.bind] at h
                    | [a, b] =>
                        simp only [Bind.bind, Except.bind, pure, Except.pure] at h
                        obtain ⟨ids', hmapM, hout, ⟨t, happ⟩, hnd, hcn, hinv⟩ :=
                          ih _ (acc ++ [idV]) st' out h
                        refine ⟨idV :: ids', ?_, by simp [hout],
                          ⟨(idV, mkKEdge d' a b ety) :: t, by rw [happ]; simp⟩,
                          hnd, hcn, ?_⟩
                        · simp only [List.mapM_cons, helem, hmapM, Bind.bind, Except.bind,
                            pure, Except.pure]
                        · intro hei
                          apply hinv
                          have hidk : idV ∉ st.edgesAll.map Prod.fst :=
                            fun hk => hmem ((hei.2 idV).2 hk)
                          constructor
                          · simp only [List.map_append, List.map_cons, List.map_nil]
                            rw [List.nodup_append]
                            refine ⟨hei.1, List.nodup_singleton _, ?_⟩
                            intro x hx hb
                            simp only [List.mem_singleton] at hb
                            subst hb
                            exact hidk hx
                          · intro x
                            simp only [List.map_append, List.mem_append, List.map_cons,
                              List.mem_singleton, List.map_nil, List.mem_cons]
                            constructor
                            · rintro (hx | hx)
                              · exact Or.inl ((hei.2 x).1 hx)
                              · simp at hx; exact Or.inr (by simp [hx])
                            · rintro (hx | hx)
                              · exact Or.inl ((hei.2 x).2 hx)
                              · simp at hx; exact Or.inr (by simp [hx])
                | vStr s => simp [Bind.bind, Except.bind] at h
                | vNone => simp [Bind.bind, Except.bind] at h
                | vBool b => simp [Bind.bind, Except.bind] at h
                | vInt n => simp [Bind.bind, Except.bind] at h
                | vDict dd => simp [Bind.bind, Except.bind] at h
      | vStr s => simp [processEdgeElems, Bind.bind, Except.bind] at h
      | vNone => simp [processEdgeElems, Bind.bind, Except.bind] at h
      | vBool b => simp [processEdgeElems, Bind.bind, Except.bind] at h
      | vInt n => simp [processEdgeElems, Bind.bind, Except.bind] at h
      | vList xs => simp [processEdgeElems, Bind.bind, Except.bind] at h

theorem processRowNodes_ok (qgIds : List String) :
    ∀ (st : MapState) (row : PyDict) (bnds : List (String × List PyVal))
      (st' : MapState) (bnds' : List (String × List PyVal)),
      processRowNodes st row qgIds bnds = .ok (st', bnds') →
      ∃ nbs, qgIds.mapM (fun q => do
          let cell ← (dictLookup row q).elim (Except.error ("KeyError: " ++ q)) Except.ok
          let tys ← (dictLookup row ("type__" ++ q)).elim
            (Except.error ("KeyError: type__" ++ q)) Except.ok
          let ids ← cellNodeIds cell tys
          pure (q, ids)) = .ok nbs ∧
        bnds' = bnds ++ nbs ∧
        (∃ t, st'.nodesAll = st.nodesAll ++ t) ∧
        st'.edgesAll = st.edgesAll ∧ st'.collectedEdges = st.collectedEdges ∧
        (nodeInv st → nodeInv st' ∧
          ∀ x, x ∈ st'.nodesAll.map Prod.fst ↔
            (x ∈ st.nodesAll.map Prod.fst ∨ ∃ p ∈ nbs, x ∈ p.2)) := by
  induction qgIds with
  | nil =>
      intro st row bnds st' bnds' h
      simp only [processRowNodes, Except.ok.injEq, Prod.mk.injEq] at h
      obtain ⟨h1, h2⟩ := h
      subst h1 h2
      exact ⟨[], rfl, by simp, ⟨[], by simp⟩, rfl, rfl, fun hi => ⟨hi, by simp⟩⟩
  | cons q rest ih =>
      intro st row bnds st' bnds' h
      simp only [processRowNodes, Bind.bind, Except.bind] at h
      cases hc : dictLookup row q with
      | none => rw [hc] at h; simp [Option.elim] at h
      | some cell =>
          rw [hc] at h
          simp only [Option.elim] at h
          cases ht : dictLookup row ("type__" ++ q) with
          | none => rw [ht] at h; simp [Option.elim] at h
          | some tys =>
              rw [ht] at h
              simp only [Option.elim] at h
              cases hp : nodeCellPairs cell tys with
              | error e => rw [hp] at h; simp [Except.bind] at h
              | ok pairs =>
                  rw [hp] at h
                  simp only [Except.bind] at h
                  cases hpe : processNodeElems st pairs [] with
                  | error e => rw [hpe] at h; simp at h
                  | ok pr =>
                      obtain ⟨st1, ids⟩ := pr
                      rw [hpe] at h
                      have h2 : processRowNodes st1 row rest (bnds ++ [(q, ids)]) =
                          .ok (st', bnds') := h
                      obtain ⟨ids0, hmapM0, hout0, ⟨t1, happ1⟩, hed1, hce1, hinv1⟩ :=
                        processNodeElems_ok pairs st [] st1 ids hpe
                      simp only [List.nil_append] at hout0
                      subst hout0
                      have hcell : cellNodeIds cell tys = .ok ids := by
                        simp only [cellNodeIds, Bind.bind, Except.bind, hp]
                        exact hmapM0
                      obtain ⟨nbs', hmapM', hbnds', ⟨t2, happ2⟩, hed2, hce2, hinv2⟩ :=
                        ih st1 row (bnds ++ [(q, ids)]) st' bnds' h2
                      refine ⟨(q, ids) :: nbs', ?_, by simp [hbnds'], ?_, ?_, ?_, ?_⟩
                      · rw [List.mapM_cons, hmapM']
                        simp only [hc, ht, Option.elim, hcell, Bind.bind, Except.bind,
                          pure, Except.pure]
                      · exact ⟨t1 ++ t2, by rw [happ2, happ1]; simp⟩
                      · rw [hed2, hed1]
                      · rw [hce2, hce1]
                      · intro hni
                        obtain ⟨hni1, hiff1⟩ := hinv1 hni
                        obtain ⟨hni2, hiff2⟩ := hinv2 hni1
                        refine ⟨hni2, ?_⟩
                        intro x
                        have ha := hiff1 x
                        have hb := hiff2 x
                        simp only [List.exists_mem_cons_iff]
                        constructor
                        · intro hk
                          rcases hb.1 hk with hk1 | hk1
                          · rcases ha.1 hk1 with hk2 | hk2
                            · exact Or.inl hk2
                            · exact Or.inr (Or.inl hk2)
                          · exact Or.inr (Or.inr hk1)
                        · rintro (hk | hk | hk)
                          · exact hb.2 (Or.inl (ha.2 (Or.inl hk)))
                          · exact hb.2 (Or.inl (ha.2 (Or.inr hk)))
                          · exact hb.2 (Or.inr hk)

theorem processRowEdges_ok (qgIds : List String) :
    ∀ (st : MapState) (row : PyDict) (bnds : List (String × List PyVal))
      (st' : MapState) (bnds' : List (String × List PyVal)),
      processRowEdges st row qgIds bnds = .ok (st', bnds') →
      ∃ ebs, qgIds.mapM (fun q => do
          let ids ← cellEdgeIds row q
          pure (q, ids)) = .ok ebs ∧
        bnds' = bnds ++ ebs ∧
        (∃ t, st'.edgesAll = st.edgesAll ++ t) ∧
        st'.nodesAll = st.nodesAll ∧ st'.collectedNodes = st.collectedNodes ∧
        (edgeInv st → edgeInv st') := by
  induction qgIds with
  | nil =>
      intro st row bnds st' bnds' h
      simp only [processRowEdges, Except.ok.injEq, Prod.mk.injEq] at h
      obtain ⟨h1, h2⟩ := h
      subst h1 h2
      exact ⟨[], rfl, by simp, ⟨[], by simp⟩, rfl, rfl, fun hi => hi⟩
  | cons q rest ih =>
      intro st row bnds st' bnds' h
      simp only [processRowEdges, Bind.bind, Except.bind] at h
      cases htr : edgeCellTriples row q with
      | error e => rw [htr] at h; simp at h
      | ok triples =>
          rw [htr] at h
          simp only [Except.bind] at h
          cases hpe : processEdgeElems st triples [] with
          | error e => rw [hpe] at h; simp at h
          | ok pr =>
              obtain ⟨st1, ids⟩ := pr
              rw [hpe] at h
              have h2 : processRowEdges st1 row rest (bnds ++ [(q, ids)]) =
                  .ok (st', bnds') := h
              obtain ⟨ids0, hmapM0, hout0, ⟨t1, happ1⟩, hnd1, hcn1, hinv1⟩ :=
                processEdgeElems_ok triples st [] st1 ids hpe
              simp only [List.nil_append] at hout0
              subst hout0
              have hcell : cellEdgeIds row q = .ok ids := by
                simp only [cellEdgeIds, Bind.bind, Except.bind, htr]
                exact hmapM0
              obtain ⟨ebs', hmapM', hbnds', ⟨t2, happ2⟩, hnd2, hcn2, hinv2⟩ :=
                ih st1 row (bnds ++ [(q, ids)]) st' bnds' h2
              refine ⟨(q, ids) :: ebs', ?_, by simp [hbnds'], ?_, ?_, ?_, ?_⟩
              · rw [List.mapM_cons, hmapM']
                simp only [hcell, Bind.bind, Except.bind, pure, Except.pure]
              · exact ⟨t1 ++ t2, by rw [happ2, happ1]; simp⟩
              · rw [hnd2, hnd1]
              · rw [hcn2, hcn1]
              · exact fun hei => hinv2 (hinv1 hei)

theorem processRow_ok (qg : QGraph) (st : MapState) (row : PyDict) (st' : MapState)
    (b : AnswerBinding) (h : processRow qg st row = .ok (st', b)) :
    specRowBinding qg row = .ok b ∧
    (∃ t, st'.nodesAll = st.nodesAll ++ t) ∧
    (∃ t, st'.edgesAll = st.edgesAll ++ t) ∧
    (nodeInv st → nodeInv st' ∧
      ∀ x, x ∈ st'.nodesAll.map Prod.fst ↔
        (x ∈ st.nodesAll.map Prod.fst ∨ ∃ p ∈ b.node_bindings, x ∈ p.2)) ∧
    (edgeInv st → edgeInv st') := by
  simp only [processRow, Bind.bind, Except.bind] at h
  cases hn : processRowNodes st row (qg.nodes.map Prod.fst) [] with
  | error e => rw [hn] at h; simp at h
  | ok pr =>
      obtain ⟨st1, nb⟩ := pr
      rw [hn] at h
      simp only [Except.bind] at h
      cases he : processRowEdges st1 row (qg.edges.map Prod.fst) [] with
      | error e => rw [he] at h; simp at h
      | ok pr2 =>
          obtain ⟨st2, eb⟩ := pr2
          rw [he] at h
          simp only [pure, Except.pure, Except.ok.injEq, Prod.mk.injEq] at h
          obtain ⟨hst, hb⟩ := h
          subst hst
          obtain ⟨nbs, hmn, hnb, ⟨t1, happ1⟩, hed1, hce1, hinv1⟩ :=
            processRowNodes_ok (qg.nodes.map Prod.fst) st row [] st1 nb hn
          obtain ⟨ebs, hme, heb, ⟨t2, happ2⟩, hnd2, hcn2, hinv2⟩ :=
            processRowEdges_ok (qg.edges.map Prod.fst) st1 row [] st2 eb he
          simp only [List.nil_append] at hnb heb
          subst hnb heb
          refine ⟨?_, ⟨t1, by rw [hnd2, happ1]⟩, ⟨t2, by rw [happ2, hed1]⟩, ?_, ?_⟩
          · rw [specRowBinding, hmn, hme]
            simp only [Bind.bind, Except.bind, pure, Except.pure]
            rw [← hb]
          · intro hni
            obtain ⟨hni1, hiff1⟩ := hinv1 hni
            have hni2 : nodeInv st2 := by
              rw [nodeInv, hnd2, hcn2]; exact hni1
            refine ⟨hni2, ?_⟩
            intro x
            rw [hnd2, ← hb]
            exact hiff1 x
          · intro hei
            have hei1 : edgeInv st1 := by
              rw [edgeInv, hed1, hce1]; exact hei
            exact hinv2 hei1

theorem mapRowsGo_ok (rows : List PyDict) (qg : QGraph) :
    ∀ (st : MapState) (acc : List AnswerBinding) (st' : MapState)
      (res : List AnswerBinding),
      mapRowsGo qg st rows acc = .ok (st', res) →
      ∃ bs, rows.mapM (specRowBinding qg) = .ok bs ∧ res = acc ++ bs ∧
        (∃ t, st'.nodesAll = st.nodesAll ++ t) ∧
        (∃ t, st'.edgesAll = st.edgesAll ++ t) ∧
        (nodeInv st → nodeInv st' ∧
          ∀ x, x ∈ st'.nodesAll.map Prod.fst ↔
            (x ∈ st.nodesAll.map Prod.fst ∨ ∃ b ∈ bs, ∃ p ∈ b.node_bindings, x ∈ p.2)) ∧
        (edgeInv st → edgeInv st') := by
  induction rows with
  | nil =>
      intro st acc st' res h
      simp only [mapRowsGo, Except.ok.injEq, Prod.mk.injEq] at h
      obtain ⟨h1, h2⟩ := h
      subst h1 h2
      exact ⟨[], rfl, by simp, ⟨[], by simp⟩, ⟨[], by simp⟩, fun hi => ⟨hi, by simp⟩,
        fun hi => hi⟩
  | cons row rest ih =>
      intro st acc st' res h
      simp only [mapRowsGo, Bind.bind, Except.bind] at h
      cases hr : processRow qg st row with
      | error e => rw [hr] at h; simp at h
      | ok pr =>
          obtain ⟨st1, b⟩ := pr
          rw [hr] at h
          have h2 : mapRowsGo qg st1 rest (acc ++ [b]) = .ok (st', res) := h
          obtain ⟨hspec, ⟨t1, happ1⟩, ⟨t2, happ2⟩, hinv1, hinv1e⟩ :=
            processRow_ok qg st row st1 b hr
          obtain ⟨bs', hmapM', hres', ⟨t3, happ3⟩, ⟨t4, happ4⟩, hinv2, hinv2e⟩ :=
            ih st1 (acc ++ [b]) st' res h2
          refine ⟨b :: bs', ?_, by simp [hres'], ⟨t1 ++ t3, by rw [happ3, happ1]; simp⟩,
        ⟨t2 ++ t4, by rw [happ4, happ2]; simp⟩, ?_, ?_⟩
          · rw [List.mapM_cons, hmapM', hspec]
            simp only [Bind.bind, Except.bind, pure, Except.pure]
          · intro hni
            obtain ⟨hni1, hiff1⟩ := hinv1 hni
            obtain ⟨hni2, hiff2⟩ := hinv2 hni1
            refine ⟨hni2, ?_⟩
            intro x
            have ha := hiff1 x
            have hb' := hiff2 x
            simp only [List.exists_mem_cons_iff]
            constructor
            · intro hk
              rcases hb'.1 hk with hk1 | hk1
              · rcases ha.1 hk1 with hk2 | hk2
                · exact Or.inl hk2
                · exact Or.inr (Or.inl hk2)
              · exact Or.inr (Or.inr hk1)
            · rintro (hk | hk | hk)
              · exact hb'.2 (Or.inl (ha.2 (Or.inl hk)))
              · exact hb'.2 (Or.inl (ha.2 (Or.inr hk)))
              · exact hb'.2 (Or.inr hk)
          · exact fun hei => hinv2e (hinv1e hei)

theorem mapRowsGo_append (qg : QGraph) (pre post : List PyDict) :
    ∀ (st : MapState) (acc : List AnswerBinding),
      mapRowsGo qg st (pre ++ post) acc =
        (mapRowsGo qg st pre acc) >>= fun r => mapRowsGo qg r.1 post r.2 := by
  induction pre with
  | nil =>
      intro st acc
      simp [mapRowsGo, Bind.bind, Except.bind]
  | cons row rest ih =>
      intro st acc
      simp only [List.cons_append, mapRowsGo, Bind.bind, Except.bind]
      cases hr : processRow qg st row with
      | error e => rfl
      | ok pr => exact ih pr.1 (acc ++ [pr.2])

/-- Claim C2: in one successful `map` call the KnowledgeGraph keys are
unique (nodes and edges), the answer rows are exactly the state-free per-row
recomputation `specRowBinding` — so binding lists keep per-row order and
multiplicity no matter what the dedup registries contain — every node key of
the KnowledgeGraph is some binding's store id, and the KnowledgeGraph of any
prefix of the rows is a prefix of the final KnowledgeGraph: the record
registered when a store id is first seen is the one retained, never
replaced. -/
theorem c2_kg_dedup (qg : QGraph) (rows : List PyDict) (resp : TRAPIResponse)
    (h : create_TRAPI_kg_response qg rows = .ok resp) :
    (resp.kgNodes.map Prod.fst).Nodup ∧
    (resp.kgEdges.map Prod.fst).Nodup ∧
    rows.mapM (specRowBinding qg) = .ok resp.results ∧
    (∀ x, x ∈ resp.kgNodes.map Prod.fst ↔
      ∃ b ∈ resp.results, ∃ p ∈ b.node_bindings, x ∈ p.2) ∧
    (∀ (pre post : List PyDict) (resp' : TRAPIResponse), rows = pre ++ post →
      create_TRAPI_kg_response qg pre = .ok resp' →
      (∃ t, resp.kgNodes = resp'.kgNodes ++ t) ∧
      (∃ t, resp.kgEdges = resp'.kgEdges ++ t)) := by
  have hni : nodeInv emptyMapState := ⟨by simp [emptyMapState], by simp [emptyMapState]⟩
  have hei : edgeInv emptyMapState := ⟨by simp [emptyMapState], by simp [emptyMapState]⟩
  simp only [create_TRAPI_kg_response, Bind.bind, Except.bind] at h
  cases hgo : mapRowsGo qg emptyMapState rows [] with
  | error e => rw [hgo] at h; simp at h
  | ok pr =>
      obtain ⟨st, res⟩ := pr
      rw [hgo] at h
      simp only [pure, Except.pure, Except.ok.injEq] at h
      subst h
      obtain ⟨bs, hmapM, hres, ⟨t1, happ1⟩, ⟨t2, happ2⟩, hinv, hinvE⟩ :=
        mapRowsGo_ok rows qg emptyMapState [] st res hgo
      simp only [List.nil_append] at hres
      subst hres
      obtain ⟨hnst, hiff⟩ := hinv hni
      refine ⟨hnst.1, (hinvE hei).1, hmapM, ?_, ?_⟩
      · intro x
        have hx := hiff x
        simpa [emptyMapState] using hx
      · intro pre post resp' hsplit h'
        simp only [create_TRAPI_kg_response, Bind.bind, Except.bind] at h'
        cases hgo' : mapRowsGo qg emptyMapState pre [] with
        | error e => rw [hgo'] at h'; simp at h'
        | ok pr' =>
            obtain ⟨st1, res1⟩ := pr'
            rw [hgo'] at h'
            simp only [pure, Except.pure, Except.ok.injEq] at h'
            subst h'
            rw [hsplit, mapRowsGo_append qg pre post emptyMapState [], hgo'] at hgo
            simp only [Bind.bind, Except.bind] at hgo
            obtain ⟨bs2, hmapM2, hres2, ⟨t3, happ3⟩, ⟨t4, happ4⟩, hinv2, hinvE2⟩ :=
              mapRowsGo_ok post qg st1 res1 st res hgo
            exact ⟨⟨t3, happ3⟩, ⟨t4, happ4⟩⟩

/-- Witness for C2: two rows both matching store id `A:1` for `n0` yield one
KnowledgeGraph entry (with the first row's attributes) and two separate
bindings. -/
theorem c2_kg_dedup_witness :
    create_TRAPI_kg_response ⟨[("n0", [])], []⟩
      [[("n0", PyVal.vDict [("id", PyVal.vStr "A:1"), ("name", PyVal.vStr "thing"),
                            ("p", PyVal.vStr "v")]),
        ("type__n0", PyVal.vList [PyVal.vStr "T"])],
       [("n0", PyVal.vDict [("id", PyVal.vStr "A:1"), ("name", PyVal.vStr "other")]),
        ("type__n0", PyVal.vList [PyVal.vStr "T"])]] =
      Except.ok
        { kgNodes := [(PyVal.vStr "A:1",
            { name := PyVal.vStr "thing", attributes := [("p", PyVal.vStr "v")] })],
          kgEdges := [],
          results := [⟨[("n0", [PyVal.vStr "A:1"])], []⟩,
                      ⟨[("n0", [PyVal.vStr "A:1"])], []⟩] } ∧
    (([(PyVal.vStr "A:1",
         ({ name := PyVal.vStr "thing", attributes := [("p", PyVal.vStr "v")] } :
           KNode))].map Prod.fst).Nodup ∧
     [[("n0", PyVal.vDict [("id", PyVal.vStr "A:1"), ("name", PyVal.vStr "thing"),
                           ("p", PyVal.vStr "v")]),
       ("type__n0", PyVal.vList [PyVal.vStr "T"])],
      [("n0", PyVal.vDict [("id", PyVal.vStr "A:1"), ("name", PyVal.vStr "other")]),
       ("type__n0", PyVal.vList [PyVal.vStr "T"])]].mapM
         (specRowBinding ⟨[("n0", [])], []⟩) =
       .ok [⟨[("n0", [PyVal.vStr "A:1"])], []⟩, ⟨[("n0", [PyVal.vStr "A:1"])], []⟩]) := by
  have h := c2_kg_dedup ⟨[("n0", [])], []⟩
    [[("n0", PyVal.vDict [("id", PyVal.vStr "A:1"), ("name", PyVal.vStr "thing"),
                          ("p", PyVal.vStr "v")]),
      ("type__n0", PyVal.vList [PyVal.vStr "T"])],
     [("n0", PyVal.vDict [("id", PyVal.vStr "A:1"), ("name", PyVal.vStr "other")]),
      ("type__n0", PyVal.vList [PyVal.vStr "T"])]]
    { kgNodes := [(PyVal.vStr "A:1",
        { name := PyVal.vStr "thing", attributes := [("p", PyVal.vStr "v")] })],
      kgEdges := [],
      results := [⟨[("n0", [PyVal.vStr "A:1"])], []⟩,
                  ⟨[("n0", [PyVal.vStr "A:1"])], []⟩] }
    (by rfl)
  exact ⟨by rfl, h.1, h.2.2.1⟩

/-! ## Map-time failure lemmas -/

theorem processNodeElems_bad (elems : List (PyVal × PyVal))
    (hbad : ∃ p ∈ elems, recLacksId p.1 = true) :
    ∀ (st : MapState) (acc : List PyVal) (r : MapState × List PyVal),
      processNodeElems st elems acc ≠ .ok r := by
  induction elems with
  | nil => simp at hbad
  | cons p rest ih =>
      obtain ⟨nv, ty⟩ := p
      intro st acc r h
      rcases hbad with ⟨pb, hpb, hlk⟩
      simp only [List.mem_cons] at hpb
      cases nv with
      | vDict d =>
          simp only [processNodeElems, Bind.bind, Except.bind] at h
          cases hpop : popId d with
          | error e => rw [hpop] at h; simp at h
          | ok pr =>
              obtain ⟨idV, d'⟩ := pr
              rw [hpop] at h
              simp only [Except.bind] at h
              rcases hpb with hpb | hpb
              · -- the bad record is the head: its id lookup must have failed
                rw [hpb] at hlk
                simp only [recLacksId, Option.isNone_iff_eq_none] at hlk
                simp [popId, hlk] at hpop
              · cases htr : pyTruthy idV with
                | false => rw [htr] at h; simp at h
                | true =>
                    rw [htr] at h
                    simp only [if_pos] at h
                    exact ih ⟨pb, hpb, hlk⟩ _ (acc ++ [idV]) r h
      | vStr s =>
          rcases hpb with hpb | hpb
          · rw [hpb] at hlk; simp [recLacksId] at hlk
          · simp [processNodeElems, Bind.bind, Except.bind] at h
      | vNone =>
          rcases hpb with hpb | hpb
          · rw [hpb] at hlk; simp [recLacksId] at hlk
          · simp [processNodeElems, Bind.bind, Except.bind] at h
      | vBool b =>
          rcases hpb with hpb | hpb
          · rw [hpb] at hlk; simp [recLacksId] at hlk
          · simp [processNodeElems, Bind.bind, Except.bind] at h
      | vInt n =>
          rcases hpb with hpb | hpb
          · rw [hpb] at hlk; simp [recLacksId] at hlk
          · simp [processNodeElems, Bind.bind, Except.bind] at h
      | vList xs =>
          rcases hpb with hpb | hpb
          · rw [hpb] at hlk; simp [recLacksId] at hlk
          · simp [processNodeElems, Bind.bind, Except.bind] at h

theorem processEdgeElems_bad (elems : List ((PyVal × String) × PyVal))
    (hbad : ∃ t ∈ elems, recLacksId t.1.1 = true) :
    ∀ (st : MapState) (acc : List PyVal) (r : MapState × List PyVal),
      processEdgeElems st elems acc ≠ .ok r := by
  induction elems with
  | nil => simp at hbad
  | cons p rest ih =>
      obtain ⟨⟨ev, ety⟩, pairV⟩ := p
      intro st acc r h
      rcases hbad with ⟨pb, hpb, hlk⟩
      simp only [List.mem_cons] at hpb
      cases ev with
      | vDict d =>
          simp only [processEdgeElems, Bind.bind, Except.bind] at h
          cases hpop : popId d with
          | error e => rw [hpop] at h; simp at h
          | ok pr =>
              obtain ⟨idV, d'⟩ := pr
              rw [hpop] at h
              simp only [Except.bind] at h
              rcases hpb with hpb | hpb
              · rw [hpb] at hlk
                simp only [recLacksId, Option.isNone_iff_eq_none] at hlk
                simp [popId, hlk] at hpop
              · by_cases hmem : idV ∈ st.collectedEdges
                · rw [if_pos hmem] at h
                  simp only [pure, Except.pure, Except.bind] at h
                  exact ih ⟨pb, hpb, hlk⟩ st (acc ++ [idV]) r h
                · rw [if_neg hmem] at h
                  cases pairV with
                  | vList xs =>
                      match xs with
                      | [] => simp [Bind.bind, Except.bind] at h
                      | [a] => simp [Bind.bind, Except.bind] at h
                      | a :: b :: c :: t => simp [Bind.bind, Except.bind] at h
                      | [a, b] =>
                          simp only [Bind.bind, Except.bind, pure, Except.pure] at h
                          exact ih ⟨pb, hpb, hlk⟩ _ (acc ++ [idV]) r h
                  | vStr s => simp [Bind.bind, Except.bind] at h
                  | vNone => simp [Bind.bind, Except.bind] at h
                  | vBool b => simp [Bind.bind, Except.bind] at h
                  | vInt n => simp [Bind.bind, Except.bind] at h
                  | vDict dd => simp [Bind.bind, Except.bind] at h
      | vStr s =>
          rcases hpb with hpb | hpb
          · rw [hpb] at hlk; simp [recLacksId] at hlk
          · simp [processEdgeElems, Bind.bind, Except.bind] at h
      | vNone =>
          rcases hpb with hpb | hpb
          · rw [hpb] at hlk; simp [recLacksId] at hlk
          · simp [processEdgeElems, Bind.bind, Except.bind] at h
      | vBool b =>
          rcases hpb with hpb | hpb
          · rw [hpb] at hlk; simp [recLacksId] at hlk
          · simp [processEdgeElems, Bind.bind, Except.bind] at h
      | vInt n =>
          rcases hpb with hpb | hpb
          · rw [hpb] at hlk; simp [recLacksId] at hlk
          · simp [processEdgeElems, Bind.bind, Except.bind] at h
      | vList xs =>
          rcases hpb with hpb | hpb
          · rw [hpb] at hlk; simp [recLacksId] at hlk
          · simp [processEdgeElems, Bind.bind, Except.bind] at h

theorem processRowNodes_bad (qgIds : List String) (row : PyDict) (q : String)
    (cell tys : PyVal) (pairs : List (PyVal × PyVal))
    (hq : q ∈ qgIds) (hc : dictLookup row q = some cell)
    (ht : dictLookup row ("type__" ++ q) = some tys)
    (hp : nodeCellPairs cell tys = .ok pairs)
    (hbad : ∃ p ∈ pairs, recLacksId p.1 = true) :
    ∀ (st : MapState) (bnds : List (String × List PyVal))
      (r : MapState × List (String × List PyVal)),
      processRowNodes st row qgIds bnds ≠ .ok r := by
  induction qgIds with
  | nil => simp at hq
  | cons q' rest ih =>
      intro st bnds r h
      simp only [processRowNodes, Bind.bind, Except.bind] at h
      rcases List.mem_cons.1 hq with heq | hmem
      · subst heq
        rw [hc] at h
        simp only [Option.elim] at h
        rw [ht] at h
        simp only [Option.elim] at h
        rw [hp] at h
        simp only [Except.bind] at h
        cases hpe : processNodeElems st pairs [] with
        | error e => rw [hpe] at h; simp at h
        | ok pr => exact processNodeElems_bad pairs hbad st [] pr hpe
      · cases hc' : dictLookup row q' with
        | none => rw [hc'] at h; simp [Option.elim] at h
        | some cell' =>
            rw [hc'] at h
            simp only [Option.elim] at h
            cases ht' : dictLookup row ("type__" ++ q') with
            | none => rw [ht'] at h; simp [Option.elim] at h
            | some tys' =>
                rw [ht'] at h
                simp only [Option.elim] at h
                cases hp' : nodeCellPairs cell' tys' with
                | error e => rw [hp'] at h; simp [Except.bind] at h
                | ok pairs' =>
                    rw [hp'] at h
                    simp only [Except.bind] at h
                    cases hpe : processNodeElems st pairs' [] with
                    | error e => rw [hpe] at h; simp at h
                    | ok pr =>
                        rw [hpe] at h
                        exact ih hmem pr.1 (bnds ++ [(q', pr.2)]) r h

theorem processRowEdges_bad (qgIds : List String) (row : PyDict) (q : String)
    (triples : List ((PyVal × String) × PyVal))
    (hq : q ∈ qgIds) (htr : edgeCellTriples row q = .ok triples)
    (hbad : ∃ t ∈ triples, recLacksId t.1.1 = true) :
    ∀ (st : MapState) (bnds : List (String × List PyVal))
      (r : MapState × List (String × List PyVal)),
      processRowEdges st row qgIds bnds ≠ .ok r := by
  induction qgIds with
  | nil => simp at hq
  | cons q' rest ih =>
      intro st bnds r h
      simp only [processRowEdges, Bind.bind, Except.bind] at h
      rcases List.mem_cons.1 hq with heq | hmem
      · subst heq
        rw [htr] at h
        simp only [Except.bind] at h
        cases hpe : processEdgeElems st triples [] with
        | error e => rw [hpe] at h; simp at h
        | ok pr => exact processEdgeElems_bad triples hbad st [] pr hpe
      · cases htr' : edgeCellTriples row q' with
        | error e => rw [htr'] at h; simp at h
        | ok triples' =>
            rw [htr'] at h
            simp only [Except.bind] at h
            cases hpe : processEdgeElems st triples' [] with
            | error e => rw [hpe] at h; simp at h
            | ok pr =>
                rw [hpe] at h
                exact ih hmem pr.1 (bnds ++ [(q', pr.2)]) r h

theorem processRow_bad (qg : QGraph) (row : PyDict)
    (hbad : rowHasIdlessNodeRec qg row ∨ rowHasIdlessEdgeRec qg row) :
    ∀ (st : MapState) (r : MapState × AnswerBinding),
      processRow qg st row ≠ .ok r := by
  intro st r h
  simp only [processRow, Bind.bind, Except.bind] at h
  rcases hbad with hbad | hbad
  · obtain ⟨q, hq, cell, tys, hc, ht, pairs, hp, hpb⟩ := hbad
    cases hn : processRowNodes st row (qg.nodes.map Prod.fst) [] with
    | error e => rw [hn] at h; simp at h
    | ok pr =>
        exact processRowNodes_bad (qg.nodes.map Prod.fst) row q cell tys pairs hq hc ht
          hp hpb st [] pr hn
  · obtain ⟨q, hq, triples, htr, hpb⟩ := hbad
    cases hn : processRowNodes st row (qg.nodes.map Prod.fst) [] with
    | error e => rw [hn] at h; simp at h
    | ok pr =>
        rw [hn] at h
        simp only [Except.bind] at h
        cases he : processRowEdges pr.1 row (qg.edges.map Prod.fst) [] with
        | error e => rw [he] at h; simp at h
        | ok pr2 =>
            exact processRowEdges_bad (qg.edges.map Prod.fst) row q triples hq htr hpb
              pr.1 [] pr2 he

theorem mapRowsGo_bad (qg : QGraph) (rows : List PyDict) (row : PyDict)
    (hmem : row ∈ rows)
    (hbad : rowHasIdlessNodeRec qg row ∨ rowHasIdlessEdgeRec qg row) :
    ∀ (st : MapState) (acc : List AnswerBinding)
      (r : MapState × List AnswerBinding),
      mapRowsGo qg st rows acc ≠ .ok r := by
  induction rows with
  | nil => simp at hmem
  | cons row' rest ih =>
      intro st acc r h
      simp only [mapRowsGo, Bind.bind, Except.bind] at h
      rcases List.mem_cons.1 hmem with heq | hmem'
      · subst heq
        cases hr : processRow qg st row with
        | error e => rw [hr] at h; simp at h
        | ok pr => exact processRow_bad qg row hbad st pr hr
      · cases hr : processRow qg st row' with
        | error e => rw [hr] at h; simp at h
        | ok pr =>
            rw [hr] at h
            exact ih hmem' pr.1 (acc ++ [pr.2]) r h

/-- Claim C9: a result set containing a matched node or edge record without
its identity field makes the entire map call fail — the call returns an
error carrying no knowledge graph and no answer rows, never a partial
answer. -/
theorem c9_missing_identity_aborts (qg : QGraph) (rows : List PyDict)
    (hbad : ∃ row ∈ rows, rowHasIdlessNodeRec qg row ∨ rowHasIdlessEdgeRec qg row) :
    ∃ msg, create_TRAPI_kg_response qg rows = .error msg := by
  obtain ⟨row, hmem, hb⟩ := hbad
  cases hcr : create_TRAPI_kg_response qg rows with
  | error e => exact ⟨e, rfl⟩
  | ok resp =>
      simp only [create_TRAPI_kg_response, Bind.bind, Except.bind] at hcr
      cases hgo : mapRowsGo qg emptyMapState rows [] with
      | error e => rw [hgo] at hcr; simp at hcr
      | ok pr => exact absurd hgo (mapRowsGo_bad qg rows row hmem hb emptyMapState [] pr)

/-- Witness for C9: one row whose node record has no `id` makes the whole
call return the `KeyError` — no knowledge graph and no answer rows. -/
theorem c9_missing_identity_aborts_witness :
    (∃ row ∈ [[("n0", PyVal.vDict [("name", PyVal.vStr "x")]),
               ("type__n0", PyVal.vList [PyVal.vStr "T"])]],
      rowHasIdlessNodeRec ⟨[("n0", [])], []⟩ row ∨
      rowHasIdlessEdgeRec ⟨[("n0", [])], []⟩ row) ∧
    (∃ msg, create_TRAPI_kg_response ⟨[("n0", [])], []⟩
        [[("n0", PyVal.vDict [("name", PyVal.vStr "x")]),
          ("type__n0", PyVal.vList [PyVal.vStr "T"])]] = .error msg) ∧
    create_TRAPI_kg_response ⟨[("n0", [])], []⟩
        [[("n0", PyVal.vDict [("name", PyVal.vStr "x")]),
          ("type__n0", PyVal.vList [PyVal.vStr "T"])]] = .error "KeyError: id" := by
  have hbad : ∃ row ∈ [[("n0", PyVal.vDict [("name", PyVal.vStr "x")]),
               ("type__n0", PyVal.vList [PyVal.vStr "T"])]],
      rowHasIdlessNodeRec ⟨[("n0", [])], []⟩ row ∨
      rowHasIdlessEdgeRec ⟨[("n0", [])], []⟩ row := by
    refine ⟨_, List.mem_singleton.2 rfl, Or.inl ?_⟩
    refine ⟨"n0", by simp, PyVal.vDict [("name", PyVal.vStr "x")],
      PyVal.vList [PyVal.vStr "T"], rfl, rfl,
      [(PyVal.vDict [("name", PyVal.vStr "x")], PyVal.vList [PyVal.vStr "T"])], rfl,
      ⟨_, List.mem_singleton.2 rfl, rfl⟩⟩
  exact ⟨hbad,
    c9_missing_identity_aborts ⟨[("n0", [])], []⟩ _ hbad, rfl⟩
